import Mathlib

/-!
# Verification of the assuan-rs Assuan/pinentry server

Shallow embedding of the `assuan` / `assuan-server` crates (percent codec,
response-line builder, line reader, server loop) and of the `pinentry`
service handlers, together with proofs of the specification claims.

Strings are modelled as `List Char` (Rust `&str` / `String`), byte buffers as
`List Nat` (each element a byte value < 256).
-/

/-! ## Character utilities -/

/-- Number of bytes of the UTF-8 encoding of a scalar (Rust `char::len_utf8`). -/
def charUtf8Size (c : Char) : Nat :=
  if c.toNat < 0x80 then 1
  else if c.toNat < 0x800 then 2
  else if c.toNat < 0x10000 then 3
  else 4

/-- Byte length of the UTF-8 encoding of a string (Rust `str::len`). -/
def utf8Total : List Char → Nat
  | [] => 0
  | c :: rest => charUtf8Size c + utf8Total rest

/-- UTF-8 encoding of one scalar. -/
def utf8EncodeChar (c : Char) : List Nat :=
  let n := c.toNat
  if n < 0x80 then [n]
  else if n < 0x800 then [0xC0 + n / 64, 0x80 + n % 64]
  else if n < 0x10000 then [0xE0 + n / 4096, 0x80 + (n / 64) % 64, 0x80 + n % 64]
  else [0xF0 + n / 262144, 0x80 + (n / 4096) % 64, 0x80 + (n / 64) % 64, 0x80 + n % 64]

/-- UTF-8 encoding of a string as bytes (Rust `str::as_bytes`). -/
def utf8Encode : List Char → List Nat
  | [] => []
  | c :: rest => utf8EncodeChar c ++ utf8Encode rest

/-- Strict UTF-8 validation and decoding of a byte sequence, mirroring Rust
`std::str::from_utf8`: rejects overlong encodings, surrogates and values
above `0x10FFFF`. Returns `none` on invalid input. -/
def utf8Decode : List Nat → Option (List Char)
  | [] => some []
  | b0 :: rest =>
    if b0 < 0x80 then
      (utf8Decode rest).map (fun l => Char.ofNat b0 :: l)
    else if 0xC2 ≤ b0 ∧ b0 ≤ 0xDF then
      match rest with
      | b1 :: rest' =>
        if 0x80 ≤ b1 ∧ b1 ≤ 0xBF then
          (utf8Decode rest').map (fun l => Char.ofNat ((b0 - 0xC0) * 64 + (b1 - 0x80)) :: l)
        else none
      | _ => none
    else if 0xE0 ≤ b0 ∧ b0 ≤ 0xEF then
      match rest with
      | b1 :: b2 :: rest' =>
        let lo1 := if b0 = 0xE0 then 0xA0 else 0x80
        let hi1 := if b0 = 0xED then 0x9F else 0xBF
        if (lo1 ≤ b1 ∧ b1 ≤ hi1) ∧ (0x80 ≤ b2 ∧ b2 ≤ 0xBF) then
          (utf8Decode rest').map
            (fun l => Char.ofNat ((b0 - 0xE0) * 4096 + (b1 - 0x80) * 64 + (b2 - 0x80)) :: l)
        else none
      | _ => none
    else if 0xF0 ≤ b0 ∧ b0 ≤ 0xF4 then
      match rest with
      | b1 :: b2 :: b3 :: rest' =>
        let lo1 := if b0 = 0xF0 then 0x90 else 0x80
        let hi1 := if b0 = 0xF4 then 0x8F else 0xBF
        if (lo1 ≤ b1 ∧ b1 ≤ hi1) ∧ (0x80 ≤ b2 ∧ b2 ≤ 0xBF) ∧ (0x80 ≤ b3 ∧ b3 ≤ 0xBF) then
          (utf8Decode rest').map
            (fun l =>
              Char.ofNat
                ((b0 - 0xF0) * 262144 + (b1 - 0x80) * 4096 + (b2 - 0x80) * 64 + (b3 - 0x80)) :: l)
        else none
      | _ => none
    else none

/-! ## Percent decoding — `src/assuan/src/percent_decode.rs` -/

/-- Rust `char::is_ascii_digit`. -/
def isAsciiDigit (c : Char) : Prop := 48 ≤ c.toNat ∧ c.toNat ≤ 57

instance (c : Char) : Decidable (isAsciiDigit c) := by unfold isAsciiDigit; infer_instance

/-- Rust `char::is_ascii_uppercase`. -/
def isAsciiUppercase (c : Char) : Prop := 65 ≤ c.toNat ∧ c.toNat ≤ 90

instance (c : Char) : Decidable (isAsciiUppercase c) := by unfold isAsciiUppercase; infer_instance

/-- Rust `char::to_digit(16)`: accepts `0-9`, `a-f`, `A-F`. -/
def toDigit16 (c : Char) : Option Nat :=
  if 48 ≤ c.toNat ∧ c.toNat ≤ 57 then some (c.toNat - 48)
  else if 97 ≤ c.toNat ∧ c.toNat ≤ 102 then some (c.toNat - 87)
  else if 65 ≤ c.toNat ∧ c.toNat ≤ 70 then some (c.toNat - 55)
  else none

/-- Rust `char::from_u32`: succeeds exactly on Unicode scalar values. -/
def charFromU32 (n : Nat) : Option Char :=
  if n.isValidChar then some (Char.ofNat n) else none

/-- `decode_one_char` of `percent_decode.rs`:
`char::from_u32(a.to_digit(16)? * 0x10 + b.to_digit(16)?)`.
`none` models `Err(MalformedEncoding)`. -/
def decodeOneChar (a b : Char) : Option Char :=
  match toDigit16 a, toDigit16 b with
  | some va, some vb => charFromU32 (va * 0x10 + vb)
  | _, _ => none

/-- The incoming percent decoder: `PercentDecoder::decode_next` fused with the
`collect::<Result<String, _>>()` loop used by the server (`percent_decode.rs`).
`none` models `Err(MalformedEncoding)`. -/
def percentDecodeList : List Char → Option (List Char)
  | [] => some []
  | c :: rest =>
    if c = '%' then
      match rest with
      | a :: b :: rest' =>
        if ¬isAsciiDigit a ∧ ¬isAsciiUppercase a then none
        else if ¬isAsciiDigit b ∧ ¬isAsciiUppercase b then none
        else
          match decodeOneChar a b with
          | some d => (percentDecodeList rest').map (fun l => d :: l)
          | none => none
      | _ => none
    else (percentDecodeList rest).map (fun l => c :: l)

/-! ## Outgoing escaping — `optionally_escape` of `src/assuan/src/response.rs` -/

/-- `optionally_escape`: the four characters that are always percent-escaped on
output; every other character is passed through. -/
def optionallyEscape (x : Char) : Option (List Char) :=
  if x = '%' then some ['%', '2', '5']
  else if x = '\r' then some ['%', '0', 'D']
  else if x = '\n' then some ['%', '0', 'A']
  else if x = '\\' then some ['%', '5', 'C']
  else none

/-- The outgoing escaper lifted to strings: each character is replaced by its
escape sequence when `optionally_escape` demands it (this is exactly what
`ResponseLine::append` writes for a given input). -/
def escapeString : List Char → List Char
  | [] => []
  | c :: rest =>
    (match optionallyEscape c with
     | some t => t
     | none => [c]) ++ escapeString rest

/-! ## Claim C4: reference decoder written from the specification's words -/

/-- Uppercase-hex digit as the claim describes it: `[0-9A-F]`. -/
def isUpperHexDigit (c : Char) : Prop :=
  (48 ≤ c.toNat ∧ c.toNat ≤ 57) ∨ (65 ≤ c.toNat ∧ c.toNat ≤ 70)

instance (c : Char) : Decidable (isUpperHexDigit c) := by
  unfold isUpperHexDigit; infer_instance

/-- Value of an uppercase-hex digit. -/
def upperHexVal (c : Char) : Nat :=
  if 48 ≤ c.toNat ∧ c.toNat ≤ 57 then c.toNat - 48 else c.toNat - 55

/-- Modelled from the spec (§4.2) and claim C4's words, for comparison with
`percentDecodeList`: decode `%HH` with both `H ∈ [0-9A-F]` (uppercase hex
only) to the character with code `16·hi + lo`; fail when that code is not a
valid Unicode scalar; pass every character other than `%` through unchanged;
fail when an escape is truncated or contains a lowercase or non-hex digit. -/
def percentDecodeSpec : List Char → Option (List Char)
  | [] => some []
  | c :: rest =>
    if c = '%' then
      match rest with
      | a :: b :: rest' =>
        if isUpperHexDigit a ∧ isUpperHexDigit b then
          match charFromU32 (16 * upperHexVal a + upperHexVal b) with
          | some d => (percentDecodeSpec rest').map (fun l => d :: l)
          | none => none
        else none
      | _ => none
    else (percentDecodeSpec rest).map (fun l => c :: l)

/-! ## Proofs for claims C3 and C4 -/

lemma optionallyEscape_none_ne_percent {c : Char} (h : optionallyEscape c = none) :
    ¬c = '%' := by
  intro e; subst e; simp [optionallyEscape] at h

/-- The escape triple produced for an escaped character starts with `%` and
decodes back to that character. -/
lemma optionallyEscape_shape {c : Char} {t : List Char} (h : optionallyEscape c = some t) :
    ∃ x y, t = ['%', x, y] ∧ ¬x = '%' ∧ ¬y = '%' ∧ decodeOneChar x y = some c := by
  unfold optionallyEscape at h
  split_ifs at h with h1 h2 h3 h4 <;>
    (injection h with h; subst h) <;>
    first
      | (subst h1; exact ⟨'2', '5', rfl, by decide, by decide, by decide⟩)
      | (subst h2; exact ⟨'0', 'D', rfl, by decide, by decide, by decide⟩)
      | (subst h3; exact ⟨'0', 'A', rfl, by decide, by decide, by decide⟩)
      | (subst h4; exact ⟨'5', 'C', rfl, by decide, by decide, by decide⟩)

/-- C3. Round-trip: decoding the escaped form of any string yields the string
back, `decode(escape(s)) = s`. -/
theorem decode_escape_roundtrip (s : List Char) :
    percentDecodeList (escapeString s) = some s := by
  induction s with
  | nil => rfl
  | cons c rest ih =>
    cases h : optionallyEscape c with
    | none =>
      have hc := optionallyEscape_none_ne_percent h
      rw [escapeString, h]
      rw [show (match (none : Option (List Char)) with
            | some t => t | none => [c]) ++ escapeString rest = c :: escapeString rest from rfl]
      rw [percentDecodeList.eq_def]
      simp [hc, ih]
    | some t =>
      rw [escapeString, h]
      unfold optionallyEscape at h
      split_ifs at h with h1 h2 h3 h4 <;> (injection h with h; subst h)
      · subst h1
        rw [percentDecodeList.eq_def]
        simp +decide [ih, show decodeOneChar '2' '5' = some '%' from by decide]
      · subst h2
        rw [percentDecodeList.eq_def]
        simp +decide [ih, show decodeOneChar '0' 'D' = some '\r' from by decide]
      · subst h3
        rw [percentDecodeList.eq_def]
        simp +decide [ih, show decodeOneChar '0' 'A' = some '\n' from by decide]
      · subst h4
        rw [percentDecodeList.eq_def]
        simp +decide [ih, show decodeOneChar '5' 'C' = some '\\' from by decide]

lemma gateFail_not_upperhex {a : Char} (hg : ¬isAsciiDigit a ∧ ¬isAsciiUppercase a) :
    ¬isUpperHexDigit a := by
  unfold isAsciiDigit isAsciiUppercase at hg
  unfold isUpperHexDigit
  omega

lemma gatePass_toDigit_some {a : Char} (hg : ¬(¬isAsciiDigit a ∧ ¬isAsciiUppercase a))
    {v : Nat} (hd : toDigit16 a = some v) : isUpperHexDigit a ∧ upperHexVal a = v := by
  unfold isAsciiDigit isAsciiUppercase at hg
  unfold toDigit16 at hd
  unfold isUpperHexDigit upperHexVal
  split_ifs at hd <;> injection hd with hd <;> split_ifs <;> omega

lemma gatePass_toDigit_none {a : Char} (hd : toDigit16 a = none) :
    ¬isUpperHexDigit a := by
  unfold toDigit16 at hd
  unfold isUpperHexDigit
  split_ifs at hd with h1 h2 h3
  omega

/-- C4. The incoming percent decoder agrees exactly with the decoder described
by the specification: it decodes `%HH` (both digits uppercase hex `[0-9A-F]`)
to the character with code `16·hi + lo`, passes every non-`%` character
through unchanged, and fails (`MalformedEncoding`, here `none`) exactly on a
truncated escape, a lowercase or non-hex digit, or a decoded value that is
not a Unicode scalar. -/
theorem percent_decode_matches_spec (s : List Char) :
    percentDecodeList s = percentDecodeSpec s := by
  induction s using percentDecodeList.induct with
  | case1 => rfl
  | case2 a b rest' hg =>
    rw [percentDecodeList.eq_def, percentDecodeSpec.eq_def]
    have := gateFail_not_upperhex hg
    simp [hg, this]
  | case3 a b rest' hg1 hg2 =>
    rw [percentDecodeList.eq_def, percentDecodeSpec.eq_def]
    have := gateFail_not_upperhex hg2
    simp [hg1, hg2, this]
  | case4 a b rest' hg1 hg2 d hx ih =>
    rw [percentDecodeList.eq_def, percentDecodeSpec.eq_def]
    unfold decodeOneChar at hx
    rcases hda : toDigit16 a with _ | va <;> rw [hda] at hx
    · simp at hx
    rcases hdb : toDigit16 b with _ | vb <;> rw [hdb] at hx
    · simp at hx
    simp only at hx
    have ha := gatePass_toDigit_some hg1 hda
    have hb := gatePass_toDigit_some hg2 hdb
    have harg : 16 * upperHexVal a + upperHexVal b = va * 0x10 + vb := by
      rw [ha.2, hb.2]; ring
    simp [hg1, hg2, ha.1, hb.1, harg, hx,
      show decodeOneChar a b = some d from by unfold decodeOneChar; rw [hda, hdb]; exact hx, ih]
  | case5 a b rest' hg1 hg2 hx =>
    rw [percentDecodeList.eq_def, percentDecodeSpec.eq_def]
    unfold decodeOneChar at hx
    rcases hda : toDigit16 a with _ | va <;> rw [hda] at hx
    · have ha := gatePass_toDigit_none hda
      simp [hg1, hg2, ha,
        show decodeOneChar a b = none from by unfold decodeOneChar; rw [hda]]
    rcases hdb : toDigit16 b with _ | vb <;> rw [hdb] at hx
    · have hb := gatePass_toDigit_none hdb
      simp [hg1, hg2, hb,
        show decodeOneChar a b = none from by unfold decodeOneChar; rw [hda, hdb]]
    -- both digits decoded: `charFromU32` cannot fail on a value below 0xD800
    exfalso
    simp only at hx
    unfold charFromU32 at hx
    have hva : va ≤ 15 := by
      unfold toDigit16 at hda; split_ifs at hda <;> injection hda with hda <;> omega
    have hvb : vb ≤ 15 := by
      unfold toDigit16 at hdb; split_ifs at hdb <;> injection hdb with hdb <;> omega
    have hvalid : (va * 0x10 + vb).isValidChar := by
      unfold Nat.isValidChar
      omega
    rw [if_pos hvalid] at hx
    exact Option.noConfusion hx
  | case6 rest hne =>
    rw [percentDecodeList.eq_def, percentDecodeSpec.eq_def]
    match rest, hne with
    | [], _ => simp
    | [x], _ => simp
    | a :: b :: r, hne => exact absurd rfl (hne a b r)
  | case7 c rest hc ih =>
    rw [percentDecodeList.eq_def, percentDecodeSpec.eq_def]
    simp [hc, ih]

/-! ## ResponseLine — the `builder` module of `src/assuan/src/response.rs`

The Rust builder stores raw bytes `resp: [u8; 999]` plus a byte count
`size`; every byte ever stored comes from a `&str`, so the stored prefix is
always valid UTF-8 and is modelled here by its character content `resp`.
The byte count equals the UTF-8 length of that content. -/

/-- `MAX_LINE_SIZE` of `lib.rs`. -/
def MAX_LINE_SIZE : Nat := 1000

/-- `ResponseLine`: the characters currently stored in `resp[..size]`. -/
structure ResponseLine where
  resp : List Char
deriving DecidableEq, Repr

/-- `ResponseLine::new`. -/
def ResponseLine.new : ResponseLine := ⟨[]⟩

/-- `ResponseLine::size` — the stored byte count (`self.size`). -/
def ResponseLine.size (rl : ResponseLine) : Nat := utf8Total rl.resp

/-- `ResponseLine::add_data`: copies `data` into `resp[size..size+len]`,
failing (without mutating) when the 999-byte array has no room; an empty
`data` succeeds immediately. The `Bool` is `true` on `Ok(())`, `false` on
`Err(TooLong)`. -/
def ResponseLine.add_data (rl : ResponseLine) (data : List Char) : ResponseLine × Bool :=
  if utf8Total data = 0 then (rl, true)
  else if MAX_LINE_SIZE - 1 < rl.size + utf8Total data then (rl, false)
  else (⟨rl.resp ++ data⟩, true)

/-- The `iter.find_map` step of `ResponseLine::append`: split `data` into the
prefix before the first character that needs escaping, and — when such a
character exists — its escape string `t` together with the remaining input
(`iter.as_str()`). -/
def splitAtEsc : List Char → List Char × Option (List Char × List Char)
  | [] => ([], none)
  | c :: rest =>
    match optionallyEscape c with
    | some t => ([], some (t, rest))
    | none =>
      let pr := splitAtEsc rest
      (c :: pr.1, pr.2)

lemma splitAtEsc_some_length {d pre t rest} (h : splitAtEsc d = (pre, some (t, rest))) :
    rest.length < d.length := by
  induction d generalizing pre with
  | nil => simp [splitAtEsc] at h
  | cons c d' ih =>
    rw [splitAtEsc.eq_def] at h
    rcases he : optionallyEscape c with _ | t' <;> simp only [he] at h
    · injection h with h1 h2
      have hd' : splitAtEsc d' = ((splitAtEsc d').1, some (t, rest)) := by
        rw [← h2]
      have := ih hd'
      simp only [List.length_cons]
      omega
    · injection h with h1 h2
      injection h2 with h2
      injection h2 with h2a h2b
      subst h2b
      simp

/-- The loop of `ResponseLine::append`: copy the prefix before the next
escapable character, copy that character's escape sequence, continue with the
rest; when nothing needs escaping copy the whole remaining string. Failure of
any `add_data` call aborts with the partially written state (`&mut self` in
Rust keeps the mutations already made). -/
def ResponseLine.appendLoop (rl : ResponseLine) (data : List Char) : ResponseLine × Bool :=
  match h : splitAtEsc data with
  | (pre, none) => rl.add_data pre
  | (pre, some (t, rest)) =>
    let (r1, ok1) := rl.add_data pre
    if ok1 then
      let (r2, ok2) := r1.add_data t
      if ok2 then r2.appendLoop rest
      else (r2, false)
    else (r1, false)
termination_by data.length
decreasing_by exact splitAtEsc_some_length h

/-- `ResponseLine::append`: the pre-check rejects when the raw byte length of
`data` exceeds `resp.len() - size` (the array length is 999), then runs the
escape-and-copy loop. -/
def ResponseLine.append (rl : ResponseLine) (data : List Char) : ResponseLine × Bool :=
  if (MAX_LINE_SIZE - 1) - rl.size < utf8Total data then (rl, false)
  else rl.appendLoop data

/-- `ResponseLine::push`: appends the 1-character string holding `x`. -/
def ResponseLine.push (rl : ResponseLine) (x : Char) : ResponseLine × Bool :=
  rl.append [x]

/-- `ResponseLine::chain`: like `append` but consumes `self`; `none` models
`Err(TooLong)` (the partially written value is dropped). -/
def ResponseLine.chain (rl : ResponseLine) (data : List Char) : Option ResponseLine :=
  let (r, ok) := rl.append data
  if ok then some r else none

/-- `ResponseLine::pop`: looks at the last three characters of the stored
string (via `char_indices().rev()`); when the third-from-last is `%`, decodes
the trailing `%XX` triple and removes all three characters, otherwise removes
the last character. The outer `none` models the `expect` panic on an invalid
triple; the inner `Option` is the Rust return value (`none` on an empty
buffer). -/
def ResponseLine.pop (rl : ResponseLine) : Option (Option Char × ResponseLine) :=
  match rl.resp.reverse with
  | [] => some (none, rl)
  | last :: rev' =>
    match rev' with
    | mid :: pp :: _ =>
      if pp = '%' then
        match decodeOneChar mid last with
        | some d => some (some d, ⟨(rl.resp.reverse.drop 3).reverse⟩)
        | none => none
      else some (some last, ⟨rev'.reverse⟩)
    | _ => some (some last, ⟨rev'.reverse⟩)

/-- Byte length of the escaped form of a string: each escaped character
contributes its escape sequence's length, every other character its UTF-8
length. -/
def escapedLen : List Char → Nat
  | [] => 0
  | c :: rest =>
    (match optionallyEscape c with
     | some t => utf8Total t
     | none => charUtf8Size c) + escapedLen rest

/-- The `ResponseLine` values reachable through the public constructors and
mutators (`new`, `chain`, `append`, `push`, `pop`); mutation through `&mut
self` keeps the state of a failed `append`/`push`, so the first projection is
taken unconditionally. -/
inductive ResponseLine.Reachable : ResponseLine → Prop
  | new : ResponseLine.Reachable ResponseLine.new
  | append (r : ResponseLine) (data : List Char) :
      ResponseLine.Reachable r → ResponseLine.Reachable (r.append data).1
  | pop (r r' : ResponseLine) (c : Option Char) :
      ResponseLine.Reachable r → r.pop = some (c, r') → ResponseLine.Reachable r'

/-! ## Lemmas about sizes, escaping and `add_data` -/

lemma charUtf8Size_pos (c : Char) : 1 ≤ charUtf8Size c := by
  unfold charUtf8Size; split_ifs <;> omega

lemma utf8Total_append (a b : List Char) :
    utf8Total (a ++ b) = utf8Total a + utf8Total b := by
  induction a with
  | nil => simp [utf8Total]
  | cons c a ih => simp [utf8Total, ih]; omega

lemma utf8Total_eq_zero {d : List Char} : utf8Total d = 0 ↔ d = [] := by
  cases d with
  | nil => simp [utf8Total]
  | cons c r =>
    simp only [utf8Total]
    have := charUtf8Size_pos c
    constructor
    · omega
    · intro h; exact absurd h (by simp)

lemma utf8Total_reverse (l : List Char) : utf8Total l.reverse = utf8Total l := by
  induction l with
  | nil => rfl
  | cons c r ih => simp [utf8Total, List.reverse_cons, utf8Total_append, ih]; omega

lemma utf8Total_drop_le (l : List Char) (k : Nat) : utf8Total (l.drop k) ≤ utf8Total l := by
  induction l generalizing k with
  | nil => simp
  | cons c r ih =>
    cases k with
    | zero => simp
    | succ k =>
      simp only [List.drop_succ_cons]
      have := ih k
      have := charUtf8Size_pos c
      simp only [utf8Total]
      omega

lemma utf8EncodeChar_length (c : Char) :
    (utf8EncodeChar c).length = charUtf8Size c := by
  unfold utf8EncodeChar charUtf8Size
  by_cases h1 : c.toNat < 128
  · simp [h1]
  · by_cases h2 : c.toNat < 2048
    · simp [h1, h2]
    · by_cases h3 : c.toNat < 65536
      · simp [h1, h2, h3]
      · simp [h1, h2, h3]

lemma utf8Encode_length (l : List Char) : (utf8Encode l).length = utf8Total l := by
  induction l with
  | nil => rfl
  | cons c r ih => simp [utf8Encode, utf8Total, utf8EncodeChar_length, ih]

lemma optionallyEscape_sizes {c : Char} {t : List Char} (h : optionallyEscape c = some t) :
    charUtf8Size c = 1 ∧ utf8Total t = 3 := by
  unfold optionallyEscape at h
  split_ifs at h with h1 h2 h3 h4 <;> (injection h with h; subst h) <;>
    first
      | (subst h1; exact ⟨by decide, by decide⟩)
      | (subst h2; exact ⟨by decide, by decide⟩)
      | (subst h3; exact ⟨by decide, by decide⟩)
      | (subst h4; exact ⟨by decide, by decide⟩)

lemma escapedLen_plain {d : List Char} (h : ∀ c ∈ d, optionallyEscape c = none) :
    escapedLen d = utf8Total d := by
  induction d with
  | nil => rfl
  | cons c r ih =>
    simp only [escapedLen, utf8Total, h c (by simp)]
    rw [ih (fun x hx => h x (by simp [hx]))]

lemma escapedLen_append (a b : List Char) :
    escapedLen (a ++ b) = escapedLen a + escapedLen b := by
  induction a with
  | nil => simp [escapedLen]
  | cons c a ih =>
    simp only [List.cons_append, escapedLen, List.append_eq]
    rw [ih]
    cases h : optionallyEscape c <;> simp only [h] <;> omega

lemma utf8Total_le_escapedLen (d : List Char) : utf8Total d ≤ escapedLen d := by
  induction d with
  | nil => simp [utf8Total, escapedLen]
  | cons c r ih =>
    simp only [utf8Total, escapedLen]
    cases h : optionallyEscape c with
    | none =>
      simp only [h]
      omega
    | some t =>
      have hs := optionallyEscape_sizes h
      simp only [h]
      omega

lemma escapeString_append (a b : List Char) :
    escapeString (a ++ b) = escapeString a ++ escapeString b := by
  induction a with
  | nil => simp [escapeString]
  | cons c a ih =>
    simp only [List.cons_append, escapeString, List.append_eq, ih, List.append_assoc]

lemma escapeString_plain {d : List Char} (h : ∀ c ∈ d, optionallyEscape c = none) :
    escapeString d = d := by
  induction d with
  | nil => rfl
  | cons c r ih =>
    simp only [escapeString, h c (by simp)]
    rw [ih (fun x hx => h x (by simp [hx]))]
    rfl

lemma splitAtEsc_none_eq {d pre : List Char} (h : splitAtEsc d = (pre, none)) :
    pre = d ∧ ∀ c ∈ d, optionallyEscape c = none := by
  induction d generalizing pre with
  | nil =>
    simp [splitAtEsc] at h
    simp [h]
  | cons c d' ih =>
    rw [splitAtEsc.eq_def] at h
    rcases he : optionallyEscape c with _ | t' <;> simp only [he] at h
    · injection h with h1 h2
      have hd' : splitAtEsc d' = ((splitAtEsc d').1, none) := by rw [← h2]
      obtain ⟨hpre, hall⟩ := ih hd'
      subst h1
      refine ⟨by rw [hpre], ?_⟩
      intro x hx
      rcases List.mem_cons.mp hx with hx | hx
      · exact hx ▸ he
      · exact hall x hx
    · simp at h

lemma splitAtEsc_some_eq {d pre t rest : List Char}
    (h : splitAtEsc d = (pre, some (t, rest))) :
    (∀ x ∈ pre, optionallyEscape x = none) ∧
    ∃ c, optionallyEscape c = some t ∧ d = pre ++ c :: rest := by
  induction d generalizing pre with
  | nil => simp [splitAtEsc] at h
  | cons c d' ih =>
    rw [splitAtEsc.eq_def] at h
    rcases he : optionallyEscape c with _ | t' <;> simp only [he] at h
    · injection h with h1 h2
      have hd' : splitAtEsc d' = ((splitAtEsc d').1, some (t, rest)) := by rw [← h2]
      obtain ⟨hall, c0, hc0, hdec⟩ := ih hd'
      subst h1
      refine ⟨?_, c0, hc0, by rw [List.cons_append, ← hdec]⟩
      intro x hx
      rcases List.mem_cons.mp hx with hx | hx
      · exact hx ▸ he
      · exact hall x hx
    · injection h with h1 h2
      injection h2 with h2
      injection h2 with h2a h2b
      subst h1 h2a h2b
      exact ⟨by simp, c, he, rfl⟩

lemma add_data_true_iff {rl : ResponseLine} {d : List Char} (h : rl.size ≤ 999) :
    (rl.add_data d).2 = true ↔ rl.size + utf8Total d ≤ 999 := by
  unfold ResponseLine.add_data MAX_LINE_SIZE
  split_ifs with h1 h2 <;> simp <;> omega

lemma add_data_false_state {rl : ResponseLine} {d : List Char}
    (h : (rl.add_data d).2 = false) : (rl.add_data d).1 = rl := by
  unfold ResponseLine.add_data at *
  split_ifs at * <;> simp_all

lemma add_data_true_resp {rl : ResponseLine} {d : List Char}
    (h : (rl.add_data d).2 = true) : (rl.add_data d).1.resp = rl.resp ++ d := by
  unfold ResponseLine.add_data at *
  split_ifs at * with h1 h2
  · rw [utf8Total_eq_zero.mp h1]
    simp
  · simp

lemma add_data_true_size {rl : ResponseLine} {d : List Char}
    (h : (rl.add_data d).2 = true) :
    (rl.add_data d).1.size = rl.size + utf8Total d := by
  have := add_data_true_resp h
  unfold ResponseLine.size at *
  rw [this, utf8Total_append]

lemma add_data_size_le {rl : ResponseLine} {d : List Char} (h : rl.size ≤ 999) :
    (rl.add_data d).1.size ≤ 999 := by
  cases hb : (rl.add_data d).2 with
  | false => rw [add_data_false_state hb]; exact h
  | true =>
    rw [add_data_true_size hb]
    have := (add_data_true_iff h).mp hb
    omega

/-! ## Behavior of `append` / `push` / `pop` -/

lemma add_data_eq_true_size {rl : ResponseLine} {d : List Char} {r : ResponseLine}
    (h : rl.add_data d = (r, true)) : r.size = rl.size + utf8Total d := by
  have h2 : (rl.add_data d).2 = true := by rw [h]
  have := add_data_true_size h2
  rw [h] at this
  exact this

lemma add_data_eq_true_resp {rl : ResponseLine} {d : List Char} {r : ResponseLine}
    (h : rl.add_data d = (r, true)) : r.resp = rl.resp ++ d := by
  have h2 : (rl.add_data d).2 = true := by rw [h]
  have := add_data_true_resp h2
  rw [h] at this
  exact this

lemma add_data_eq_true_le {rl : ResponseLine} {d : List Char} {r : ResponseLine}
    (hrl : rl.size ≤ 999) (h : rl.add_data d = (r, true)) :
    rl.size + utf8Total d ≤ 999 := by
  have h2 : (rl.add_data d).2 = true := by rw [h]
  exact (add_data_true_iff hrl).mp h2

lemma add_data_eq_false {rl : ResponseLine} {d : List Char} {r : ResponseLine}
    (hrl : rl.size ≤ 999) (h : rl.add_data d = (r, false)) :
    r = rl ∧ 999 < rl.size + utf8Total d := by
  have h2 : (rl.add_data d).2 = false := by rw [h]
  have hst := add_data_false_state h2
  rw [h] at hst
  refine ⟨hst, ?_⟩
  by_contra hc
  have := (@add_data_true_iff rl d hrl).mpr (by omega)
  rw [h] at this
  simp at this

lemma escapedLen_decomp {d pre t rest : List Char}
    (hsp : splitAtEsc d = (pre, some (t, rest))) :
    escapedLen d = utf8Total pre + utf8Total t + escapedLen rest ∧
    escapeString d = pre ++ (t ++ escapeString rest) := by
  obtain ⟨hall, c0, hc0, hdec⟩ := splitAtEsc_some_eq hsp
  subst hdec
  constructor
  · rw [escapedLen_append, escapedLen_plain hall]
    simp only [escapedLen, hc0]
    omega
  · rw [escapeString_append, escapeString_plain hall]
    simp only [escapeString, hc0]

lemma appendLoop_eq_none {rl : ResponseLine} {d pre : List Char}
    (hsp : splitAtEsc d = (pre, none)) :
    rl.appendLoop d = rl.add_data pre := by
  rw [ResponseLine.appendLoop.eq_def]
  split
  next pre' heq =>
    rw [hsp] at heq
    injection heq with e1 e2
    rw [← e1]
  next pre' t' rest' heq =>
    rw [hsp] at heq
    simp at heq

lemma appendLoop_eq_some {rl : ResponseLine} {d pre t rest : List Char}
    (hsp : splitAtEsc d = (pre, some (t, rest))) :
    rl.appendLoop d =
      (if (rl.add_data pre).2 = true then
        if ((rl.add_data pre).1.add_data t).2 = true then
          ((rl.add_data pre).1.add_data t).1.appendLoop rest
        else (((rl.add_data pre).1.add_data t).1, false)
      else ((rl.add_data pre).1, false)) := by
  rw [ResponseLine.appendLoop.eq_def]
  split
  next pre' heq =>
    rw [hsp] at heq
    simp at heq
  next pre' t' rest' heq =>
    rw [hsp] at heq
    injection heq with e1 e2
    injection e2 with e2
    injection e2 with e2a e2b
    rw [← e1, ← e2a, ← e2b]

lemma appendLoop_spec (rl : ResponseLine) (d : List Char) (h : rl.size ≤ 999) :
    ((rl.appendLoop d).2 = true ↔ rl.size + escapedLen d ≤ 999) ∧
    (rl.appendLoop d).1.size ≤ 999 ∧
    ((rl.appendLoop d).2 = true → (rl.appendLoop d).1.resp = rl.resp ++ escapeString d) := by
  induction rl, d using ResponseLine.appendLoop.induct with
  | case1 rl d pre hsp =>
    obtain ⟨hpre, hall⟩ := splitAtEsc_none_eq hsp
    subst hpre
    have hunf : rl.appendLoop pre = rl.add_data pre := appendLoop_eq_none hsp
    rw [hunf]
    refine ⟨?_, add_data_size_le h, ?_⟩
    · rw [add_data_true_iff h, escapedLen_plain hall]
    · intro ht
      rw [add_data_true_resp ht, escapeString_plain hall]
  | case2 rl d pre t rest hsp r1 r2 hadd1 hadd2 ih =>
    have hunf : rl.appendLoop d = r2.appendLoop rest := by
      rw [appendLoop_eq_some hsp, hadd1]
      simp [hadd2]
    obtain ⟨hlen, hstr⟩ := escapedLen_decomp hsp
    have h1size := add_data_eq_true_size hadd1
    have h1le := add_data_eq_true_le h hadd1
    have h2size := add_data_eq_true_size hadd2
    have h2le := add_data_eq_true_le (by omega) hadd2
    have hr2 : r2.size ≤ 999 := by omega
    obtain ⟨ih1, ih2, ih3⟩ := ih hr2
    rw [hunf]
    refine ⟨?_, ih2, ?_⟩
    · rw [ih1]
      omega
    · intro ht
      rw [ih3 ht, add_data_eq_true_resp hadd2, add_data_eq_true_resp hadd1, hstr]
      simp [List.append_assoc]
  | case3 rl d pre t rest hsp r1 r2 ok2 hadd2 hok2 hadd1 =>
    simp only [Bool.not_eq_true] at hok2
    subst hok2
    have hunf : rl.appendLoop d = (r2, false) := by
      rw [appendLoop_eq_some hsp, hadd1]
      simp [hadd2]
    obtain ⟨hlen, hstr⟩ := escapedLen_decomp hsp
    have h1size := add_data_eq_true_size hadd1
    have h1le := add_data_eq_true_le h hadd1
    obtain ⟨hst, hgt⟩ := add_data_eq_false (by omega) hadd2
    rw [hunf]
    refine ⟨?_, ?_, ?_⟩
    · simp only [Bool.false_eq_true, false_iff]
      omega
    · show r2.size ≤ 999
      rw [hst]
      omega
    · intro ht
      simp at ht
  | case4 rl d pre t rest hsp r1 ok1 hadd1 hok1 =>
    simp only [Bool.not_eq_true] at hok1
    subst hok1
    have hunf : rl.appendLoop d = (r1, false) := by
      rw [appendLoop_eq_some hsp, hadd1]
      simp
    obtain ⟨hlen, hstr⟩ := escapedLen_decomp hsp
    obtain ⟨hst, hgt⟩ := add_data_eq_false h hadd1
    rw [hunf]
    refine ⟨?_, ?_, ?_⟩
    · simp only [Bool.false_eq_true, false_iff]
      have := utf8Total_le_escapedLen rest
      omega
    · show r1.size ≤ 999
      rw [hst]
      omega
    · intro ht
      simp at ht

lemma append_spec (rl : ResponseLine) (d : List Char) (h : rl.size ≤ 999) :
    ((rl.append d).2 = true ↔ rl.size + escapedLen d ≤ 999) ∧
    (rl.append d).1.size ≤ 999 ∧
    ((rl.append d).2 = true → (rl.append d).1.resp = rl.resp ++ escapeString d) := by
  unfold ResponseLine.append MAX_LINE_SIZE
  split_ifs with hpre
  · refine ⟨?_, h, ?_⟩
    · simp only [Bool.false_eq_true, false_iff]
      have := utf8Total_le_escapedLen d
      omega
    · intro ht
      simp at ht
  · exact appendLoop_spec rl d h

/-! ## The buffer well-formedness invariant

Every `%` stored in a `ResponseLine` buffer was written by the escaper, so
the buffer is a concatenation of plain (non-escapable) characters and
complete `%XX` escape triples. We state the invariant on the reversed
character list, which matches how `pop` inspects the buffer from the end. -/

inductive WFRev : List Char → Prop
  | nil : WFRev []
  | plain (c : Char) (l : List Char) :
      optionallyEscape c = none → WFRev l → WFRev (c :: l)
  | esc (c : Char) (t l : List Char) :
      optionallyEscape c = some t → WFRev l → WFRev (t.reverse ++ l)

/-- The reachable-buffer invariant: the stored string, read from the end, is
a sequence of plain characters and escape triples. -/
def ResponseLine.WF (rl : ResponseLine) : Prop := WFRev rl.resp.reverse

lemma WFRev_head_ne_percent {l : List Char} (h : WFRev l) :
    ∀ x l', l = x :: l' → ¬x = '%' := by
  cases h with
  | nil => intro x l' hx; exact absurd hx (by simp)
  | plain c l0 hc hl =>
    intro x l' hx
    injection hx with h1 h2
    subst h1
    exact optionallyEscape_none_ne_percent hc
  | esc c t l0 hc hl =>
    obtain ⟨a, b, ht, ha, hb, hdec⟩ := optionallyEscape_shape hc
    subst ht
    intro x l' hx
    simp only [List.reverse_cons, List.reverse_nil] at hx
    injection hx with h1 h2
    subst h1
    exact hb

lemma WFRev_second_ne_percent {l : List Char} (h : WFRev l) :
    ∀ x y l', l = x :: y :: l' → ¬y = '%' := by
  cases h with
  | nil => intro x y l' hx; exact absurd hx (by simp)
  | plain c l0 hc hl =>
    intro x y l' hx
    injection hx with h1 h2
    exact WFRev_head_ne_percent hl y l' h2
  | esc c t l0 hc hl =>
    obtain ⟨a, b, ht, ha, hb, hdec⟩ := optionallyEscape_shape hc
    subst ht
    intro x y l' hx
    simp only [List.reverse_cons, List.reverse_nil] at hx
    injection hx with h1 h2
    injection h2 with h2a h2b
    subst h2a
    exact ha

lemma WFRev_append_plain {pre r : List Char} (hr : WFRev r)
    (hall : ∀ c ∈ pre, optionallyEscape c = none) :
    WFRev (pre.reverse ++ r) := by
  induction pre generalizing r with
  | nil => simpa using hr
  | cons p pre' ih =>
    rw [List.reverse_cons, List.append_assoc]
    exact ih (WFRev.plain p r (hall p (by simp)) hr)
      (fun c hc => hall c (by simp [hc]))

lemma WF_add_data_plain {rl : ResponseLine} {d : List Char} (hwf : rl.WF)
    (hall : ∀ c ∈ d, optionallyEscape c = none) : (rl.add_data d).1.WF := by
  cases hb : (rl.add_data d).2 with
  | false => rw [add_data_false_state hb]; exact hwf
  | true =>
    unfold ResponseLine.WF
    rw [add_data_true_resp hb, List.reverse_append]
    exact WFRev_append_plain hwf hall

lemma WF_add_data_esc {rl : ResponseLine} {c : Char} {t : List Char} (hwf : rl.WF)
    (hc : optionallyEscape c = some t) : (rl.add_data t).1.WF := by
  cases hb : (rl.add_data t).2 with
  | false => rw [add_data_false_state hb]; exact hwf
  | true =>
    unfold ResponseLine.WF
    rw [add_data_true_resp hb, List.reverse_append]
    exact WFRev.esc c t _ hc hwf

lemma WF_appendLoop {rl : ResponseLine} (d : List Char) (hwf : rl.WF) :
    (rl.appendLoop d).1.WF := by
  induction rl, d using ResponseLine.appendLoop.induct with
  | case1 rl d pre hsp =>
    obtain ⟨hpre, hall⟩ := splitAtEsc_none_eq hsp
    subst hpre
    rw [appendLoop_eq_none hsp]
    exact WF_add_data_plain hwf hall
  | case2 rl d pre t rest hsp r1 r2 hadd1 hadd2 ih =>
    have hunf : rl.appendLoop d = r2.appendLoop rest := by
      rw [appendLoop_eq_some hsp, hadd1]
      simp [hadd2]
    rw [hunf]
    obtain ⟨hallpre, c0, hc0, hdec⟩ := splitAtEsc_some_eq hsp
    have hwf1 : r1.WF := by
      have := WF_add_data_plain hwf hallpre
      rw [hadd1] at this
      exact this
    have hwf2 : r2.WF := by
      have := WF_add_data_esc hwf1 hc0
      rw [hadd2] at this
      exact this
    exact ih hwf2
  | case3 rl d pre t rest hsp r1 r2 ok2 hadd2 hok2 hadd1 =>
    simp only [Bool.not_eq_true] at hok2
    subst hok2
    have hunf : rl.appendLoop d = (r2, false) := by
      rw [appendLoop_eq_some hsp, hadd1]
      simp [hadd2]
    rw [hunf]
    obtain ⟨hallpre, c0, hc0, hdec⟩ := splitAtEsc_some_eq hsp
    have hwf1 : r1.WF := by
      have := WF_add_data_plain hwf hallpre
      rw [hadd1] at this
      exact this
    show r2.WF
    have := WF_add_data_esc hwf1 hc0
    rw [hadd2] at this
    exact this
  | case4 rl d pre t rest hsp r1 ok1 hadd1 hok1 =>
    simp only [Bool.not_eq_true] at hok1
    subst hok1
    have hunf : rl.appendLoop d = (r1, false) := by
      rw [appendLoop_eq_some hsp, hadd1]
      simp
    rw [hunf]
    obtain ⟨hallpre, c0, hc0, hdec⟩ := splitAtEsc_some_eq hsp
    show r1.WF
    have := WF_add_data_plain hwf hallpre
    rw [hadd1] at this
    exact this

lemma WF_append {rl : ResponseLine} (d : List Char) (hwf : rl.WF) :
    (rl.append d).1.WF := by
  unfold ResponseLine.append
  split_ifs with hpre
  · exact hwf
  · exact WF_appendLoop d hwf

lemma pop_concat_plain {resp : List Char} {c : Char} (hwf : WFRev resp.reverse)
    (hc : optionallyEscape c = none) :
    ResponseLine.pop ⟨resp ++ [c]⟩ = some (some c, ⟨resp⟩) := by
  unfold ResponseLine.pop
  simp only [List.reverse_append, List.reverse_cons, List.reverse_nil, List.nil_append,
    List.singleton_append]
  cases hr : resp.reverse with
  | nil =>
    simp only [hr]
    simp [List.reverse_eq_nil_iff.mp hr]
  | cons m rev' =>
    cases rev' with
    | nil =>
      have hresp : resp = [m].reverse := by rw [← hr, List.reverse_reverse]
      subst hresp
      simp only [hr]
    | cons pp tl =>
      have hpp : ¬pp = '%' := WFRev_second_ne_percent (hr ▸ hwf) m pp tl rfl
      have hresp : resp = (m :: pp :: tl).reverse := by rw [← hr, List.reverse_reverse]
      subst hresp
      simp only [hr]
      rw [if_neg hpp]

lemma pop_concat_esc {resp : List Char} {c : Char} {t : List Char}
    (hc : optionallyEscape c = some t) :
    ResponseLine.pop ⟨resp ++ t⟩ = some (some c, ⟨resp⟩) := by
  obtain ⟨x, y, ht, hx, hy, hdec⟩ := optionallyEscape_shape hc
  subst ht
  unfold ResponseLine.pop
  have hrev : (resp ++ ['%', x, y]).reverse = y :: x :: '%' :: resp.reverse := by simp
  simp only [hrev]
  rw [if_pos trivial, hdec]
  simp

lemma pop_le_size {r : ResponseLine} {c : Option Char} {r' : ResponseLine}
    (h : r.pop = some (c, r')) : r'.size ≤ r.size := by
  have hsz : ∀ (z : Char) (rev' : List Char), r.resp.reverse = z :: rev' →
      utf8Total rev'.reverse ≤ r.size := by
    intro z rev' hr
    unfold ResponseLine.size
    rw [utf8Total_reverse, ← utf8Total_reverse r.resp, hr]
    simp only [utf8Total]
    have := charUtf8Size_pos z
    omega
  unfold ResponseLine.pop at h
  cases hr : r.resp.reverse with
  | nil =>
    rw [hr] at h
    simp at h
    rw [← h.2]
  | cons last rev' =>
    rw [hr] at h
    cases rev' with
    | nil =>
      simp at h
      rw [← h.2]
      exact hsz last [] hr
    | cons m tl =>
      cases tl with
      | nil =>
        simp at h
        rw [← h.2]
        exact hsz last [m] hr
      | cons pp tl' =>
        dsimp only at h
        by_cases hpp : pp = '%'
        · rw [if_pos hpp] at h
          cases hd : decodeOneChar m last with
          | none => rw [hd] at h; simp at h
          | some d =>
            rw [hd] at h
            simp at h
            rw [← h.2]
            unfold ResponseLine.size
            rw [← utf8Total_reverse r.resp, hr]
            simp only [utf8Total_reverse, utf8Total]
            have h1 := charUtf8Size_pos last
            have h2 := charUtf8Size_pos m
            have h3 := charUtf8Size_pos pp
            omega
        · rw [if_neg hpp] at h
          simp at h
          rw [← h.2]
          simpa [ResponseLine.size] using hsz last (m :: pp :: tl') hr

lemma pop_WF_aux {l : List Char} (hwf : WFRev l) :
    ∀ (r r' : ResponseLine) (c : Option Char), r.resp.reverse = l →
      r.pop = some (c, r') → r'.WF := by
  cases hwf with
  | nil =>
    intro r r' c hrev hpop
    unfold ResponseLine.pop at hpop
    rw [hrev] at hpop
    simp at hpop
    unfold ResponseLine.WF
    rw [← hpop.2, hrev]
    exact WFRev.nil
  | plain c0 l0 hc0 hl0 =>
    intro r r' c hrev hpop
    have hresp : r.resp = l0.reverse ++ [c0] := by
      have := congrArg List.reverse hrev
      simpa using this
    have hr_eq : r = ⟨l0.reverse ++ [c0]⟩ := by
      rw [← hresp]
    rw [hr_eq] at hpop
    rw [pop_concat_plain (by simpa using hl0) hc0] at hpop
    simp at hpop
    unfold ResponseLine.WF
    rw [← hpop.2]
    simpa using hl0
  | esc c0 t l0 hc0 hl0 =>
    intro r r' c hrev hpop
    have hresp : r.resp = l0.reverse ++ t := by
      have := congrArg List.reverse hrev
      simpa using this
    have hr_eq : r = ⟨l0.reverse ++ t⟩ := by
      rw [← hresp]
    rw [hr_eq] at hpop
    rw [pop_concat_esc hc0] at hpop
    simp at hpop
    unfold ResponseLine.WF
    rw [← hpop.2]
    simpa using hl0

lemma pop_WF {r r' : ResponseLine} {c : Option Char} (hwf : r.WF)
    (h : r.pop = some (c, r')) : r'.WF :=
  pop_WF_aux hwf r r' c rfl h

lemma reachable_size {r : ResponseLine} (h : r.Reachable) : r.size ≤ 999 := by
  induction h with
  | new => decide
  | append r d hr ih => exact (append_spec r d ih).2.1
  | pop r r' c hr hpop ih => exact le_trans (pop_le_size hpop) ih

lemma reachable_WF {r : ResponseLine} (h : r.Reachable) : r.WF := by
  induction h with
  | new => exact WFRev.nil
  | append r d hr ih => exact WF_append d ih
  | pop r r' c hr hpop ih => exact pop_WF ih hpop

/-- C5. Every `ResponseLine` reachable through `new`/`chain`/`append`/`push`/
`pop` stores at most 999 bytes; hence the line emitted by `write` (buffer plus
`\n`) is at most 1000 bytes including the terminator; `append` and `push`
never let the stored size exceed 999 (they fail with `TooLong` instead), and
`append s` succeeds exactly when the current size plus the escaped length of
`s` fits within 999 bytes. -/
theorem response_line_size_invariant (r : ResponseLine) (h : r.Reachable) :
    r.size ≤ 999 ∧
    (utf8Encode r.resp ++ [10]).length ≤ MAX_LINE_SIZE ∧
    (∀ d, (r.append d).1.size ≤ 999 ∧
      ((r.append d).2 = true ↔ r.size + escapedLen d ≤ 999)) ∧
    (∀ c, (r.push c).1.size ≤ 999) := by
  have hs := reachable_size h
  refine ⟨hs, ?_, ?_, ?_⟩
  · have : utf8Total r.resp = r.size := rfl
    simp only [List.length_append, utf8Encode_length, List.length_cons,
      List.length_nil, MAX_LINE_SIZE]
    omega
  · intro d
    exact ⟨(append_spec r d hs).2.1, (append_spec r d hs).1⟩
  · intro c
    exact (append_spec r [c] hs).2.1

/-- Witness for C5: the invariant applied to the freshly constructed
`ResponseLine` and a concrete `append`. -/
theorem response_line_size_invariant_witness :
    (ResponseLine.new.append ['h', 'i']).2 = true := by
  have h := response_line_size_invariant ResponseLine.new ResponseLine.Reachable.new
  exact ((h.2.2.1 ['h', 'i']).2).mpr (by decide)

/-- C6. On every reachable `ResponseLine`, a successful `push c` followed by
`pop` returns `Some c` and restores the exact previous state (in particular
the previous byte size); when `c` was escaped to a `%XX` triple, `pop`
recognizes the trailing triple, removes all three bytes and returns the
decoded character. -/
theorem push_pop_roundtrip (r : ResponseLine) (c : Char) (h : r.Reachable)
    (hp : (r.push c).2 = true) :
    (r.push c).1.pop = some (some c, r) := by
  have hs := reachable_size h
  have hwf := reachable_WF h
  have hresp : (r.push c).1.resp = r.resp ++ escapeString [c] :=
    (append_spec r [c] hs).2.2 hp
  cases he : optionallyEscape c with
  | none =>
    have hes : escapeString [c] = [c] := by simp [escapeString, he]
    rw [hes] at hresp
    have hx : (r.push c).1 = ⟨r.resp ++ [c]⟩ := by rw [← hresp]
    rw [hx]
    exact pop_concat_plain hwf he
  | some t =>
    have hes : escapeString [c] = t := by simp [escapeString, he]
    rw [hes] at hresp
    have hx : (r.push c).1 = ⟨r.resp ++ t⟩ := by rw [← hresp]
    rw [hx]
    exact pop_concat_esc he

/-- Witness for C6: pushing `%` onto the fresh line stores the `%25` triple,
and `pop` undoes it. -/
theorem push_pop_roundtrip_witness :
    (ResponseLine.new.push '%').1.pop = some (some '%', ResponseLine.new) :=
  push_pop_roundtrip ResponseLine.new '%' ResponseLine.Reachable.new
    (((append_spec ResponseLine.new ['%'] (by decide)).1).mpr (by decide))

/-! ## LineReader — `src/assuan-server/src/line_reader.rs`

The byte source (`impl io::Read`) is modelled as a list of read events: a
`chunk` event is the data made available by one successful `read` call (a
read with a buffer smaller than the pending chunk takes a prefix and leaves
the remainder pending, like a pipe or socket); an empty chunk models a read
returning `0` (EOF); `ioerr` models a read returning an I/O error. -/

inductive ReadEvent where
  | chunk (data : List Nat)
  | ioerr
deriving DecidableEq, Repr

/-- A byte source: the sequence of read events it will produce. An exhausted
source behaves like EOF (reads return zero bytes). -/
abbrev Source := List ReadEvent

/-- `io::ErrorKind`-level distinction the server cares about: the
`UnexpectedEof` error created by `read_line` itself versus an error coming
from the underlying source. -/
inductive IoErrorKind where
  | unexpectedEof
  | fromSource
deriving DecidableEq, Repr

/-- `ReadLineError` of `line_reader.rs` (`UnexpectedEof` is reported through
the `Read` variant, as in the source). -/
inductive ReadLineError where
  | read (k : IoErrorKind)
  | lineTooLong
deriving DecidableEq, Repr

/-- `LineReader` state: `buf` is the filled prefix `buffer[..bytes_read]`,
`newlineFound` is `newline_found`. -/
structure LineReader where
  buf : List Nat
  newlineFound : Option Nat
deriving DecidableEq, Repr

/-- `LineReader::new`. -/
def LineReader.new : LineReader := ⟨[], none⟩

/-- `.iter().position(|c| *c == b'\n')`. -/
def pos10 : List Nat → Option Nat
  | [] => none
  | b :: r => if b = 10 then some 0 else (pos10 r).map (fun p => p + 1)

/-- Event-count-plus-byte-count measure of a source, used for termination. -/
def srcMeasure : Source → Nat
  | [] => 0
  | .ioerr :: r => 1 + srcMeasure r
  | .chunk d :: r => 1 + d.length + srcMeasure r

/-- The while-loop of `LineReader::read_line`: while fewer than
`MAX_LINE_SIZE` bytes are buffered, read a chunk into the free space,
return `None` on EOF at an empty buffer, `UnexpectedEof` on EOF with a
partial line buffered, the line on finding `\n` in the new chunk; when the
buffer fills without a newline, fail with `LineTooLong`. Returns the Rust
return value together with the reader state and the remaining source. -/
def readLoop (buf : List Nat) (src : Source) :
    Except ReadLineError (Option (List Nat)) × LineReader × Source :=
  if hguard : buf.length < MAX_LINE_SIZE then
    match src with
    | [] =>
      if buf.length = 0 then (.ok none, ⟨buf, none⟩, [])
      else (.error (.read .unexpectedEof), ⟨buf, none⟩, [])
    | .ioerr :: rest => (.error (.read .fromSource), ⟨buf, none⟩, rest)
    | .chunk d :: rest =>
      let chunk := d.take (MAX_LINE_SIZE - buf.length)
      let src' : Source :=
        if d.length ≤ MAX_LINE_SIZE - buf.length then rest
        else .chunk (d.drop (MAX_LINE_SIZE - buf.length)) :: rest
      if chunk.length = 0 then
        if buf.length = 0 then (.ok none, ⟨buf ++ chunk, none⟩, src')
        else (.error (.read .unexpectedEof), ⟨buf ++ chunk, none⟩, src')
      else
        match pos10 chunk with
        | some j =>
          (.ok (some ((buf ++ chunk).take (buf.length + j))),
            ⟨buf ++ chunk, some (buf.length + j)⟩, src')
        | none => readLoop (buf ++ chunk) src'
  else (.error .lineTooLong, ⟨buf, none⟩, src)
termination_by srcMeasure src
decreasing_by
  split
  next hle =>
    simp only [srcMeasure]
    omega
  next hgt =>
    simp only [srcMeasure, List.length_drop, MAX_LINE_SIZE] at *
    omega

/-- `LineReader::read_line`: discard the previously returned line (up to and
including its `\n`), then return a line already present in the buffer if any,
otherwise enter the read loop. -/
def LineReader.read_line (lr : LineReader) (src : Source) :
    Except ReadLineError (Option (List Nat)) × LineReader × Source :=
  let lr1 : LineReader :=
    match lr.newlineFound with
    | some p => ⟨lr.buf.drop (p + 1), none⟩
    | none => lr
  if lr1.buf.length ≠ 0 then
    match pos10 lr1.buf with
    | some pos => (.ok (some (lr1.buf.take pos)), ⟨lr1.buf, some pos⟩, src)
    | none => readLoop lr1.buf src
  else readLoop lr1.buf src

/-- The buffer contents of a reader after discarding the previously returned
line (step one of `read_line`). -/
def effBuf (lr : LineReader) : List Nat :=
  match lr.newlineFound with
  | some p => lr.buf.drop (p + 1)
  | none => lr.buf

/-- What kind of event ends the deliverable prefix of a source: reading past
the last pending byte hits either a clean EOF (source exhausted or a
zero-byte read) or an I/O error. -/
inductive StopKind where
  | eof
  | ioerr
deriving DecidableEq, Repr

/-- The bytes a source will deliver before the first zero-byte read or I/O
error. -/
def deliverable : Source → List Nat
  | [] => []
  | .ioerr :: _ => []
  | .chunk [] :: _ => []
  | .chunk (b :: d) :: r => (b :: d) ++ deliverable r

/-- The stop event after the deliverable prefix. -/
def stopKind : Source → StopKind
  | [] => .eof
  | .ioerr :: _ => .ioerr
  | .chunk [] :: _ => .eof
  | .chunk (_ :: _) :: r => stopKind r

/-! ## Lemmas about `pos10` and list prefixes -/

lemma pos10_lt_length {l : List Nat} {k : Nat} (h : pos10 l = some k) : k < l.length := by
  induction l generalizing k with
  | nil => simp [pos10] at h
  | cons b r ih =>
    rw [pos10] at h
    split_ifs at h with hb
    · injection h with h
      simp [← h]
    · cases hp : pos10 r with
      | none => rw [hp] at h; simp at h
      | some p =>
        rw [hp] at h
        simp at h
        have := ih hp
        simp
        omega

lemma pos10_append_some {xs : List Nat} {k : Nat} (h : pos10 xs = some k) (ys : List Nat) :
    pos10 (xs ++ ys) = some k := by
  induction xs generalizing k with
  | nil => simp [pos10] at h
  | cons b r ih =>
    rw [pos10] at h
    rw [List.cons_append, pos10]
    split_ifs at h ⊢ with hb
    · exact h
    · cases hp : pos10 r with
      | none => rw [hp] at h; simp at h
      | some p =>
        rw [hp] at h
        simp at h
        rw [ih hp]
        simp [h]

lemma pos10_append_none {xs : List Nat} (h : pos10 xs = none) (ys : List Nat) :
    pos10 (xs ++ ys) = (pos10 ys).map (fun p => p + xs.length) := by
  induction xs with
  | nil => cases hys : pos10 ys <;> simp [hys]
  | cons b r ih =>
    rw [pos10] at h
    rw [List.cons_append, pos10]
    split_ifs at h ⊢ with hb
    cases hp : pos10 r with
    | none =>
      rw [ih hp]
      cases hys : pos10 ys
      · simp [hys]
      · simp [hys]
        omega
    | some p => rw [hp] at h; simp at h

lemma pos10_take_some {l : List Nat} {k n : Nat} (h : pos10 l = some k) (hk : k < n) :
    pos10 (l.take n) = some k := by
  induction l generalizing k n with
  | nil => simp [pos10] at h
  | cons b r ih =>
    rw [pos10] at h
    cases n with
    | zero => omega
    | succ n' =>
      rw [List.take_succ_cons, pos10]
      split_ifs at h ⊢ with hb
      · exact h
      · cases hp : pos10 r with
        | none => rw [hp] at h; simp at h
        | some p =>
          rw [hp] at h
          simp at h
          have : p < n' := by omega
          rw [ih hp this]
          simp [h]

lemma pos10_take_inv {l : List Nat} {n j : Nat} (h : pos10 (l.take n) = some j) :
    pos10 l = some j := by
  rw [← List.take_append_drop n l]
  exact pos10_append_some h _

lemma take_append_left {α : Type} (x z : List α) {n : Nat} (h : n ≤ x.length) :
    (x ++ z).take n = x.take n := by
  induction x generalizing n with
  | nil =>
    simp at h
    simp [h]
  | cons a x' ih =>
    cases n with
    | zero => simp
    | succ n' =>
      simp only [List.cons_append, List.take_succ_cons]
      rw [ih (by simpa using h)]

lemma deliverable_cons_ne {e : List Nat} {r : Source} (he : e ≠ []) :
    deliverable (.chunk e :: r) = e ++ deliverable r := by
  cases e with
  | nil => exact absurd rfl he
  | cons b d => rfl

lemma stopKind_cons_ne {e : List Nat} {r : Source} (he : e ≠ []) :
    stopKind (.chunk e :: r) = stopKind r := by
  cases e with
  | nil => exact absurd rfl he
  | cons b d => rfl

lemma readLoop_unfold_guard {buf : List Nat} {src : Source}
    (h : ¬buf.length < MAX_LINE_SIZE) :
    readLoop buf src = (.error .lineTooLong, ⟨buf, none⟩, src) := by
  rw [readLoop.eq_def, dif_neg h]

lemma readLoop_unfold_nil {buf : List Nat} (h : buf.length < MAX_LINE_SIZE) :
    readLoop buf [] =
      if buf.length = 0 then (.ok none, ⟨buf, none⟩, ([] : Source))
      else (.error (.read .unexpectedEof), ⟨buf, none⟩, ([] : Source)) := by
  rw [readLoop.eq_def, dif_pos h]

lemma readLoop_unfold_ioerr {buf : List Nat} {rest : Source}
    (h : buf.length < MAX_LINE_SIZE) :
    readLoop buf (.ioerr :: rest) = (.error (.read .fromSource), ⟨buf, none⟩, rest) := by
  rw [readLoop.eq_def, dif_pos h]

lemma readLoop_unfold_chunk {buf d : List Nat} {rest : Source}
    (h : buf.length < MAX_LINE_SIZE) :
    readLoop buf (.chunk d :: rest) =
      (if (d.take (MAX_LINE_SIZE - buf.length)).length = 0 then
        if buf.length = 0 then
          (.ok none, ⟨buf ++ d.take (MAX_LINE_SIZE - buf.length), none⟩,
            if d.length ≤ MAX_LINE_SIZE - buf.length then rest
            else .chunk (d.drop (MAX_LINE_SIZE - buf.length)) :: rest)
        else
          (.error (.read .unexpectedEof), ⟨buf ++ d.take (MAX_LINE_SIZE - buf.length), none⟩,
            if d.length ≤ MAX_LINE_SIZE - buf.length then rest
            else .chunk (d.drop (MAX_LINE_SIZE - buf.length)) :: rest)
      else
        match pos10 (d.take (MAX_LINE_SIZE - buf.length)) with
        | some j =>
          (.ok (some ((buf ++ d.take (MAX_LINE_SIZE - buf.length)).take (buf.length + j))),
            ⟨buf ++ d.take (MAX_LINE_SIZE - buf.length), some (buf.length + j)⟩,
            if d.length ≤ MAX_LINE_SIZE - buf.length then rest
            else .chunk (d.drop (MAX_LINE_SIZE - buf.length)) :: rest)
        | none =>
          readLoop (buf ++ d.take (MAX_LINE_SIZE - buf.length))
            (if d.length ≤ MAX_LINE_SIZE - buf.length then rest
             else .chunk (d.drop (MAX_LINE_SIZE - buf.length)) :: rest)) := by
  rw [readLoop.eq_def, dif_pos h]

set_option maxHeartbeats 1000000 in
lemma readLoop_spec (buf : List Nat) (src : Source) (hb : pos10 buf = none) :
    (∀ k, pos10 (buf ++ deliverable src) = some k → k < MAX_LINE_SIZE →
      (readLoop buf src).1 = .ok (some ((buf ++ deliverable src).take k))) ∧
    (buf ++ deliverable src = [] → stopKind src = .eof →
      (readLoop buf src).1 = .ok none) ∧
    (buf ++ deliverable src ≠ [] → pos10 (buf ++ deliverable src) = none →
      (buf ++ deliverable src).length < MAX_LINE_SIZE → stopKind src = .eof →
      (readLoop buf src).1 = .error (.read .unexpectedEof)) ∧
    (pos10 ((buf ++ deliverable src).take MAX_LINE_SIZE) = none →
      MAX_LINE_SIZE ≤ (buf ++ deliverable src).length →
      (readLoop buf src).1 = .error .lineTooLong) := by
  induction buf, src using readLoop.induct with
  | case1 buf hg h0 =>
    have hbuf : buf = [] := List.length_eq_zero.mp h0
    subst hbuf
    refine ⟨?_, ?_, ?_, ?_⟩
    · intro k hk _
      simp [deliverable, pos10] at hk
    · intro _ _
      rw [readLoop_unfold_nil hg, if_pos h0]
    · intro hne _ _ _
      simp [deliverable] at hne
    · intro _ hlen
      simp [deliverable, MAX_LINE_SIZE] at hlen
  | case2 buf hg h0 =>
    refine ⟨?_, ?_, ?_, ?_⟩
    · intro k hk _
      simp only [deliverable, List.append_nil] at hk
      rw [hb] at hk
      simp at hk
    · intro he _
      simp only [deliverable, List.append_nil] at he
      exact absurd (by rw [he]; rfl) h0
    · intro _ _ _ _
      rw [readLoop_unfold_nil hg, if_neg h0]
    · intro _ hlen
      simp only [deliverable, List.append_nil] at hlen
      omega
  | case3 buf hg r =>
    refine ⟨?_, ?_, ?_, ?_⟩
    · intro k hk _
      simp only [deliverable, List.append_nil] at hk
      rw [hb] at hk
      simp at hk
    · intro _ hstop
      simp [stopKind] at hstop
    · intro _ _ _ hstop
      simp [stopKind] at hstop
    · intro _ hlen
      simp only [deliverable, List.append_nil] at hlen
      omega
  | case4 buf hg d r chunk0 hclen h0 =>
    have hcap : 1 ≤ MAX_LINE_SIZE - buf.length := by
      simp only [MAX_LINE_SIZE] at *
      omega
    have hd : d = [] := by
      have hch : chunk0 = d.take (MAX_LINE_SIZE - buf.length) := rfl
      rw [hch, List.length_take] at hclen
      have : d.length = 0 := by omega
      exact List.length_eq_zero.mp this
    subst hd
    have hbuf : buf = [] := List.length_eq_zero.mp h0
    subst hbuf
    refine ⟨?_, ?_, ?_, ?_⟩
    · intro k hk _
      simp [deliverable, pos10] at hk
    · intro _ _
      rw [readLoop_unfold_chunk hg]
      simp
    · intro hne _ _ _
      simp [deliverable] at hne
    · intro _ hlen
      simp [deliverable, MAX_LINE_SIZE] at hlen
  | case5 buf hg d r chunk0 hclen h0 =>
    have hcap : 1 ≤ MAX_LINE_SIZE - buf.length := by
      simp only [MAX_LINE_SIZE] at *
      omega
    have hd : d = [] := by
      have hch : chunk0 = d.take (MAX_LINE_SIZE - buf.length) := rfl
      rw [hch, List.length_take] at hclen
      have : d.length = 0 := by omega
      exact List.length_eq_zero.mp this
    subst hd
    refine ⟨?_, ?_, ?_, ?_⟩
    · intro k hk _
      simp only [deliverable, List.append_nil] at hk
      rw [hb] at hk
      simp at hk
    · intro he _
      simp only [deliverable, List.append_nil] at he
      exact absurd (by rw [he]; rfl) h0
    · intro _ _ _ _
      rw [readLoop_unfold_chunk hg]
      simp [h0]
    · intro _ hlen
      simp only [deliverable, List.append_nil] at hlen
      omega
  | case6 buf hg d r chunk0 hclen j hj =>
    have hch : chunk0 = d.take (MAX_LINE_SIZE - buf.length) := rfl
    rw [hch] at hclen hj
    have hdne : d ≠ [] := by
      intro he
      subst he
      simp at hclen
    have hjd : pos10 d = some j := pos10_take_inv hj
    have hjlt : j < (d.take (MAX_LINE_SIZE - buf.length)).length := pos10_lt_length hj
    have hdel : deliverable (ReadEvent.chunk d :: r) = d ++ deliverable r :=
      deliverable_cons_ne hdne
    have hposA : pos10 (buf ++ deliverable (ReadEvent.chunk d :: r)) =
        some (j + buf.length) := by
      rw [hdel, pos10_append_none hb, pos10_append_some hjd]
      rfl
    have hlt1000 : j + buf.length < MAX_LINE_SIZE := by
      rw [List.length_take] at hjlt
      omega
    have hbound : buf.length + j ≤ (buf ++ d.take (MAX_LINE_SIZE - buf.length)).length := by
      rw [List.length_append]
      omega
    have htake : (buf ++ d.take (MAX_LINE_SIZE - buf.length)).take (buf.length + j) =
        (buf ++ deliverable (ReadEvent.chunk d :: r)).take (buf.length + j) := by
      rw [hdel]
      have hsplit : buf ++ (d ++ deliverable r) =
          (buf ++ d.take (MAX_LINE_SIZE - buf.length)) ++
            (d.drop (MAX_LINE_SIZE - buf.length) ++ deliverable r) := by
        conv_lhs => rw [← List.take_append_drop (MAX_LINE_SIZE - buf.length) d]
        simp only [List.append_assoc]
      rw [hsplit]
      exact (take_append_left _ _ hbound).symm
    have hunf : (readLoop buf (ReadEvent.chunk d :: r)).1 =
        .ok (some ((buf ++ d.take (MAX_LINE_SIZE - buf.length)).take (buf.length + j))) := by
      rw [readLoop_unfold_chunk hg, if_neg hclen, hj]
    refine ⟨?_, ?_, ?_, ?_⟩
    · intro k hk _
      rw [hposA] at hk
      injection hk with hk
      subst hk
      rw [hunf, htake, Nat.add_comm buf.length j]
    · intro he _
      rw [hdel] at he
      simp [hdne] at he
    · intro _ hnone _ _
      rw [hposA] at hnone
      simp at hnone
    · intro hnone _
      rw [pos10_take_some hposA hlt1000] at hnone
      simp at hnone
  | case7 buf hg d r chunk0 src0 hclen hj ih =>
    have hch : chunk0 = d.take (MAX_LINE_SIZE - buf.length) := rfl
    have hsr : src0 = (if d.length ≤ MAX_LINE_SIZE - buf.length then r
        else ReadEvent.chunk (d.drop (MAX_LINE_SIZE - buf.length)) :: r) := rfl
    rw [hch] at hclen hj
    have hdne : d ≠ [] := by
      intro he
      subst he
      simp at hclen
    have hdel : deliverable (ReadEvent.chunk d :: r) = d ++ deliverable r :=
      deliverable_cons_ne hdne
    have hb' : pos10 (buf ++ d.take (MAX_LINE_SIZE - buf.length)) = none := by
      rw [pos10_append_none hb, hj]
      rfl
    have hA : (buf ++ d.take (MAX_LINE_SIZE - buf.length)) ++ deliverable src0 =
        buf ++ deliverable (ReadEvent.chunk d :: r) := by
      rw [hdel, hsr]
      split_ifs with hcap
      · rw [List.take_of_length_le hcap, List.append_assoc]
      · have hdrop : d.drop (MAX_LINE_SIZE - buf.length) ≠ [] := by
          intro he
          have := congrArg List.length he
          simp only [List.length_drop, List.length_nil] at this
          omega
        rw [deliverable_cons_ne hdrop]
        conv_rhs => rw [← List.take_append_drop (MAX_LINE_SIZE - buf.length) d]
        simp only [List.append_assoc]
    have hstop : stopKind src0 = stopKind (ReadEvent.chunk d :: r) := by
      rw [hsr, stopKind_cons_ne hdne]
      split_ifs with hcap
      · rfl
      · have hdrop : d.drop (MAX_LINE_SIZE - buf.length) ≠ [] := by
          intro he
          have := congrArg List.length he
          simp only [List.length_drop, List.length_nil] at this
          omega
        rw [stopKind_cons_ne hdrop]
    have hunf : (readLoop buf (ReadEvent.chunk d :: r)).1 =
        (readLoop (buf ++ d.take (MAX_LINE_SIZE - buf.length)) src0).1 := by
      rw [readLoop_unfold_chunk hg, if_neg hclen, hj, hsr]
    obtain ⟨ih1, ih2, ih3, ih4⟩ := ih hb'
    rw [hch, hsr] at ih1 ih2 ih3 ih4
    refine ⟨?_, ?_, ?_, ?_⟩
    · intro k hk hklt
      rw [← hA] at hk
      rw [hunf, hsr, ← hA]
      exact ih1 k hk hklt
    · intro he hstop'
      rw [← hA] at he
      rw [← hstop, hsr] at hstop'
      rw [hunf, hsr]
      exact ih2 he hstop'
    · intro hne hnone hlen hstop'
      rw [← hA] at hne hnone hlen
      rw [← hstop, hsr] at hstop'
      rw [hunf, hsr]
      exact ih3 hne hnone hlen hstop'
    · intro hnone hlen
      rw [← hA] at hnone hlen
      rw [hunf, hsr]
      exact ih4 hnone hlen
  | case8 buf src hg =>
    have hge : MAX_LINE_SIZE ≤ buf.length := by omega
    refine ⟨?_, ?_, ?_, ?_⟩
    · intro k hk hklt
      rw [pos10_append_none hb] at hk
      cases hd : pos10 (deliverable src) with
      | none => rw [hd] at hk; simp at hk
      | some p =>
        rw [hd] at hk
        simp at hk
        omega
    · intro he _
      have := congrArg List.length he
      simp only [List.length_append, List.length_nil] at this
      simp only [MAX_LINE_SIZE] at hge
      omega
    · intro _ _ hlen _
      rw [List.length_append] at hlen
      omega
    · intro _ _
      rw [readLoop_unfold_guard hg]

lemma read_line_eq (lr : LineReader) (src : Source) :
    lr.read_line src =
      (if (effBuf lr).length ≠ 0 then
        match pos10 (effBuf lr) with
        | some pos => (.ok (some ((effBuf lr).take pos)), ⟨effBuf lr, some pos⟩, src)
        | none => readLoop (effBuf lr) src
      else readLoop (effBuf lr) src) := by
  unfold LineReader.read_line effBuf
  cases lr.newlineFound <;> rfl

/-- C2. Behavior of `LineReader::read_line` over any byte source and any
reader state (`effBuf` is the buffered residue after discarding the
previously returned line; its length never exceeds `MAX_LINE_SIZE`). With
`A` the buffered residue followed by the bytes the source delivers before
its first zero-byte read or error: `read_line` returns `Some(line)` — the
bytes before the terminator, terminator excluded — when a `\n` occurs in the
first 1000 bytes of `A`; returns `None` when the source stops cleanly while
nothing is buffered; fails with `UnexpectedEof` when the source stops
cleanly with a nonempty partial line; and fails with `LineTooLong` when
1000 bytes can be buffered without a `\n` among them. -/
theorem read_line_cases (lr : LineReader) (src : Source)
    (hlen : (effBuf lr).length ≤ MAX_LINE_SIZE) :
    (∀ k, pos10 (effBuf lr ++ deliverable src) = some k → k < MAX_LINE_SIZE →
      (lr.read_line src).1 = .ok (some ((effBuf lr ++ deliverable src).take k))) ∧
    (effBuf lr ++ deliverable src = [] → stopKind src = .eof →
      (lr.read_line src).1 = .ok none) ∧
    (effBuf lr ++ deliverable src ≠ [] → pos10 (effBuf lr ++ deliverable src) = none →
      (effBuf lr ++ deliverable src).length < MAX_LINE_SIZE → stopKind src = .eof →
      (lr.read_line src).1 = .error (.read .unexpectedEof)) ∧
    (pos10 ((effBuf lr ++ deliverable src).take MAX_LINE_SIZE) = none →
      MAX_LINE_SIZE ≤ (effBuf lr ++ deliverable src).length →
      (lr.read_line src).1 = .error .lineTooLong) := by
  rw [read_line_eq]
  split_ifs with h0
  · cases hp : pos10 (effBuf lr) with
    | none =>
      simp only [hp]
      exact readLoop_spec (effBuf lr) src hp
    | some pos =>
      simp only [hp]
      have hposA : pos10 (effBuf lr ++ deliverable src) = some pos := pos10_append_some hp _
      have hplt : pos < (effBuf lr).length := pos10_lt_length hp
      refine ⟨?_, ?_, ?_, ?_⟩
      · intro k hk _
        rw [hposA] at hk
        injection hk with hk
        subst hk
        rw [take_append_left _ _ hplt.le]
      · intro he _
        have := congrArg List.length he
        simp only [List.length_append, List.length_nil] at this
        omega
      · intro _ hnone _ _
        rw [hposA] at hnone
        simp at hnone
      · intro hnone _
        have hlt : pos < MAX_LINE_SIZE := by omega
        rw [pos10_take_some hposA hlt] at hnone
        simp at hnone
  · have hmt : pos10 (effBuf lr) = none := by
      have he : effBuf lr = [] := List.length_eq_zero.mp (by omega)
      rw [he]
      rfl
    exact readLoop_spec (effBuf lr) src hmt

/-- Witness for C2: a fresh reader on a source delivering `AB\nC` in one
chunk returns the line `AB`. -/
theorem read_line_cases_witness :
    (LineReader.new.read_line [ReadEvent.chunk [65, 66, 10, 67]]).1 =
      .ok (some [65, 66]) := by
  have h := read_line_cases LineReader.new [ReadEvent.chunk [65, 66, 10, 67]] (by decide)
  have h1 := h.1 2 (by decide) (by decide)
  have e : (effBuf LineReader.new ++
      deliverable [ReadEvent.chunk [65, 66, 10, 67]]).take 2 = [65, 66] := by decide
  rw [e] at h1
  exact h1

/-! ## Error codes and responses — `error_code.rs`, `response.rs` -/

/-- Modelled from the spec: `error_code.rs` is not included under `src/` (only
its uses are). The spec (§3) says the codes are numeric values from GnuPG's
published `libgpg-error` code space and names the constants; the only value
it pins is `ASS_UNKNOWN_CMD = 275` (§8, scenario 3). The remaining numbers
below are representative distinct values; no claim depends on them. -/
structure ErrorCode where
  num : Nat
deriving DecidableEq, Repr

def ErrorCode.ASS_INV_VALUE : ErrorCode := ⟨261⟩
def ErrorCode.ASS_LINE_TOO_LONG : ErrorCode := ⟨263⟩
def ErrorCode.ASS_READ_ERROR : ErrorCode := ⟨270⟩
def ErrorCode.ASS_UNKNOWN_CMD : ErrorCode := ⟨275⟩
def ErrorCode.ASS_PARAMETER : ErrorCode := ⟨280⟩
def ErrorCode.INTERNAL : ErrorCode := ⟨63⟩
def ErrorCode.TOO_LARGE : ErrorCode := ⟨92⟩
def ErrorCode.NOT_CONFIRMED : ErrorCode := ⟨114⟩
def ErrorCode.CANCELED : ErrorCode := ⟨99⟩
def ErrorCode.NO_PIN : ErrorCode := ⟨88⟩

/-- Decimal rendering of a code, `code.0.to_string()`. -/
def natChars (n : Nat) : List Char := (Nat.repr n).toList

/-- The bytes one `ResponseLine::write` emits: the stored string followed by
`\n`. -/
def lineBytes (rl : ResponseLine) : List Nat := utf8Encode rl.resp ++ [10]

/-- `Ok` response (`response.rs`): a `ResponseLine` holding `OK <info>` plus
the close-connection flag. -/
structure Ok where
  resp : ResponseLine
  close_conn : Bool
deriving DecidableEq, Repr

/-- `Ok::with_debug_info`: `ResponseLine::new().chain("OK ")?.chain(info)?`.
`none` models `Err(TooLong)`. -/
def Ok.with_debug_info (info : List Char) : Option Ok :=
  match ResponseLine.new.chain "OK ".toList with
  | none => none
  | some r =>
    match r.chain info with
    | none => none
    | some r2 => some ⟨r2, false⟩

/-- `Ok::new`: `with_debug_info("success")` with the `expect` that cannot
fire (the fallback branch is unreachable). -/
def Ok.new : Ok :=
  match Ok.with_debug_info "success".toList with
  | some v => v
  | none => ⟨ResponseLine.new, false⟩

/-- `Ok::close_connection`. -/
def Ok.close_connection (o : Ok) (v : Bool) : Ok := { o with close_conn := v }

/-- `Data` response: the `D <data>` line plus the embedded `Ok` sent after
it. -/
structure Data where
  data_resp : ResponseLine
  ok : Ok
deriving DecidableEq, Repr

/-- `Data::default`: a `D ` prefix (the `expect` cannot fire) and a default
`Ok`. -/
def Data.default : Data :=
  ⟨match ResponseLine.new.chain "D ".toList with
    | some r => r
    | none => ResponseLine.new,
   Ok.new⟩

/-- `Data::append`. -/
def Data.append (d : Data) (s : List Char) : Data × Bool :=
  let p := d.data_resp.append s
  ({ d with data_resp := p.1 }, p.2)

/-- `Data::new`. -/
def Data.new (s : List Char) : Option Data :=
  let p := Data.default.append s
  if p.2 then some p.1 else none

/-- `Response` (`response.rs`): `SecretData` shares `Data`'s representation;
its zero-on-drop storage is a memory property outside this model. -/
inductive Resp where
  | secretData (d : Data)
  | data (d : Data)
  | ok (o : Ok)
deriving DecidableEq, Repr

/-- `Response::write`, as the list of emitted lines: `D`-line first, then the
embedded `OK` line; a plain `Ok` emits one line. -/
def respLines : Resp → List (List Nat)
  | .ok o => [lineBytes o.resp]
  | .data d => [lineBytes d.data_resp, lineBytes d.ok.resp]
  | .secretData d => [lineBytes d.data_resp, lineBytes d.ok.resp]

/-- `Response::connection_needs_be_closed`. -/
def Resp.connection_needs_be_closed : Resp → Bool
  | .ok o => o.close_conn
  | .data d => d.ok.close_conn
  | .secretData d => d.ok.close_conn

/-- The `error` helper of `lib.rs`:
`ResponseLine::new().chain("ERR ")?.chain(code)?.chain(" ")?.chain(desc)`. -/
def errorResp (code : ErrorCode) (desc : List Char) : Option ResponseLine :=
  match ResponseLine.new.chain "ERR ".toList with
  | none => none
  | some r1 =>
    match r1.chain (natChars code.num) with
    | none => none
    | some r2 =>
      match r2.chain [' '] with
      | none => none
      | some r3 => r3.chain desc

/-! ## The server loop — `serve_client` / `serve_request` of `lib.rs` -/

/-- `ServeError` of `lib.rs`. The `Write` variant cannot occur in this model:
the write side of the connection is modelled as an infallible sink (the
output lines are accumulated in a list), so `Write(io::Error)` — which the
loop propagates without writing anything — never arises. -/
inductive ServeError where
  | malformedUtf8
  | malformedPercentEncoding
  | errorTooLong
  | read (k : IoErrorKind)
  | receivedLineTooLong
deriving DecidableEq, Repr

/-- `str::split_once(' ')` as used to parse `cmd [args]`. -/
def splitOnceSpace : List Char → List Char × Option (List Char)
  | [] => ([], none)
  | c :: rest =>
    if c = ' ' then ([], some rest)
    else
      let p := splitOnceSpace rest
      (c :: p.1, p.2)

/-- `args.map(|a| percent_decode(a).collect()).transpose()`: no arguments
decode to no arguments; present arguments are percent-decoded, failing when
the decoding fails. -/
def decodeArgs : Option (List Char) → Option (Option (List Char))
  | none => some none
  | some a => (percentDecodeList a).map some

/-- The command-routing boundary (`router::CmdList::handle`): given the
command name, the state, and the decoded arguments, either `none` (no
registered command matches — the unknown-command reply) or the mutated state
with the handler's `Result<Response, (code, desc)>` (the error already
converted through `err.code()` / `err.to_string()`). -/
def HandlerMap (S : Type) : Type :=
  List Char → S → Option (List Char) → Option (S × Except (ErrorCode × List Char) Resp)

/-- Modelled from the spec: the description written for a non-UTF-8 line is
`err.to_string()` of Rust std's `Utf8Error` — text produced outside this
repository; represented by a fixed short string. -/
def utf8ErrorDescChars : List Char := "invalid utf-8 sequence".toList

/-- Modelled from the spec: the description written for a read failure is
`err.to_string()` of the underlying `io::Error` — text produced outside this
repository; represented by a fixed short string per kind. -/
def ioErrorDescChars : IoErrorKind → List Char
  | .unexpectedEof => "unexpected end of file".toList
  | .fromSource => "read error".toList

/-- The processing `serve_request` applies to the result of its single
`read_line` call: validate UTF-8, skip comments and empty lines, parse the
command, percent-decode the arguments, dispatch, and write the response or
the `ERR` line for a handler error (or the unknown-command error). Returns
`Ok(continue?)` or the `ServeError`, the final state, and the lines
written. -/
def serveRequestCore {S : Type} (handle : HandlerMap S) (s : S)
    (res : Except ReadLineError (Option (List Nat))) :
    Except ServeError Bool × S × List (List Nat) :=
  match res with
  | .error (.read k) => (.error (.read k), s, [])
  | .error .lineTooLong => (.error .receivedLineTooLong, s, [])
  | .ok none => (.ok false, s, [])
  | .ok (some lb) =>
    match utf8Decode lb with
    | none => (.error .malformedUtf8, s, [])
    | some line =>
      if line.head? = some '#' ∨ line = [] then (.ok true, s, [])
      else
        match decodeArgs (splitOnceSpace line).2 with
        | none => (.error .malformedPercentEncoding, s, [])
        | some cargs =>
          match handle (splitOnceSpace line).1 s cargs with
          | none =>
            match errorResp ErrorCode.ASS_UNKNOWN_CMD "Unknown command".toList with
            | some rl => (.ok true, s, [lineBytes rl])
            | none => (.error .errorTooLong, s, [])
          | some (s', .ok resp) =>
            (.ok (!resp.connection_needs_be_closed), s', respLines resp)
          | some (s', .error (code, desc)) =>
            match errorResp code desc with
            | some rl => (.ok true, s', [lineBytes rl])
            | none => (.error .errorTooLong, s', [])

/-- `serve_request`: construct a fresh `LineReader` on the connection, read
one line, and process it with `serveRequestCore`; the remaining source is
whatever the per-request reader left unconsumed. -/
def serveRequest {S : Type} (handle : HandlerMap S) (s : S) (src : Source) :
    Except ServeError Bool × S × Source × List (List Nat) :=
  ((serveRequestCore handle s (LineReader.new.read_line src).1).1,
   (serveRequestCore handle s (LineReader.new.read_line src).1).2.1,
   (LineReader.new.read_line src).2.2,
   (serveRequestCore handle s (LineReader.new.read_line src).1).2.2)

/-- The `write_error` helper of `serve_client`: builds and writes the `ERR`
line; when even that line is too long nothing is written (the loop then
returns the `io::Error` produced by `write_error` to the caller). -/
def writeError (e : ServeError) : List (List Nat) :=
  let p : ErrorCode × List Char :=
    match e with
    | .malformedUtf8 => (ErrorCode.ASS_INV_VALUE, utf8ErrorDescChars)
    | .malformedPercentEncoding => (ErrorCode.ASS_PARAMETER, "malformed percent encoding".toList)
    | .errorTooLong => (ErrorCode.INTERNAL, "error is too long".toList)
    | .read k => (ErrorCode.ASS_READ_ERROR, ioErrorDescChars k)
    | .receivedLineTooLong => (ErrorCode.ASS_LINE_TOO_LONG, "line is too long".toList)
  match errorResp p.1 p.2 with
  | some rl => [lineBytes rl]
  | none => []

lemma readLoop_measure_le (buf : List Nat) (src : Source) :
    srcMeasure (readLoop buf src).2.2 ≤ srcMeasure src := by
  induction buf, src using readLoop.induct with
  | case1 buf hg h0 =>
    rw [readLoop_unfold_nil hg, if_pos h0]
  | case2 buf hg h0 =>
    rw [readLoop_unfold_nil hg, if_neg h0]
  | case3 buf hg r =>
    rw [readLoop_unfold_ioerr hg]
    simp [srcMeasure]
  | case4 buf hg d r chunk0 hclen h0 =>
    rw [readLoop_unfold_chunk hg]
    have hch : chunk0 = d.take (MAX_LINE_SIZE - buf.length) := rfl
    rw [hch] at hclen
    rw [if_pos hclen, if_pos h0]
    split_ifs
    · simp only [srcMeasure]
      omega
    · simp only [srcMeasure, List.length_drop]
      omega
  | case5 buf hg d r chunk0 hclen h0 =>
    rw [readLoop_unfold_chunk hg]
    have hch : chunk0 = d.take (MAX_LINE_SIZE - buf.length) := rfl
    rw [hch] at hclen
    rw [if_pos hclen, if_neg h0]
    split_ifs
    · simp only [srcMeasure]
      omega
    · simp only [srcMeasure, List.length_drop]
      omega
  | case6 buf hg d r chunk0 hclen j hj =>
    have hch : chunk0 = d.take (MAX_LINE_SIZE - buf.length) := rfl
    rw [hch] at hclen hj
    rw [readLoop_unfold_chunk hg, if_neg hclen, hj]
    split_ifs
    · simp only [srcMeasure]
      omega
    · simp only [srcMeasure, List.length_drop]
      omega
  | case7 buf hg d r chunk0 src0 hclen hj ih =>
    have hch : chunk0 = d.take (MAX_LINE_SIZE - buf.length) := rfl
    have hsr : src0 = (if d.length ≤ MAX_LINE_SIZE - buf.length then r
        else ReadEvent.chunk (d.drop (MAX_LINE_SIZE - buf.length)) :: r) := rfl
    rw [hch] at hclen hj
    rw [readLoop_unfold_chunk hg, if_neg hclen, hj]
    rw [hch, hsr] at ih
    refine le_trans ih ?_
    split_ifs
    · simp only [srcMeasure]
      omega
    · simp only [srcMeasure, List.length_drop]
      omega
  | case8 buf src hg =>
    rw [readLoop_unfold_guard hg]

lemma readLoop_measure_some (buf : List Nat) (src : Source) (l : List Nat)
    (h : (readLoop buf src).1 = .ok (some l)) :
    srcMeasure (readLoop buf src).2.2 < srcMeasure src := by
  induction buf, src using readLoop.induct with
  | case1 buf hg h0 =>
    rw [readLoop_unfold_nil hg, if_pos h0] at h ⊢
    simp at h
  | case2 buf hg h0 =>
    rw [readLoop_unfold_nil hg, if_neg h0] at h ⊢
    simp at h
  | case3 buf hg r =>
    rw [readLoop_unfold_ioerr hg] at h ⊢
    simp at h
  | case4 buf hg d r chunk0 hclen h0 =>
    have hch : chunk0 = d.take (MAX_LINE_SIZE - buf.length) := rfl
    rw [hch] at hclen
    rw [readLoop_unfold_chunk hg, if_pos hclen, if_pos h0] at h ⊢
    simp at h
  | case5 buf hg d r chunk0 hclen h0 =>
    have hch : chunk0 = d.take (MAX_LINE_SIZE - buf.length) := rfl
    rw [hch] at hclen
    rw [readLoop_unfold_chunk hg, if_pos hclen, if_neg h0] at h ⊢
    simp at h
  | case6 buf hg d r chunk0 hclen j hj =>
    have hch : chunk0 = d.take (MAX_LINE_SIZE - buf.length) := rfl
    rw [hch] at hclen hj
    have hdne : d ≠ [] := by
      intro he
      subst he
      simp at hclen
    have hcap : 1 ≤ MAX_LINE_SIZE - buf.length := by
      simp only [MAX_LINE_SIZE] at *
      omega
    rw [readLoop_unfold_chunk hg, if_neg hclen, hj]
    split_ifs with hcap2
    · simp only [srcMeasure]
      omega
    · simp only [srcMeasure, List.length_drop]
      omega
  | case7 buf hg d r chunk0 src0 hclen hj ih =>
    have hch : chunk0 = d.take (MAX_LINE_SIZE - buf.length) := rfl
    have hsr : src0 = (if d.length ≤ MAX_LINE_SIZE - buf.length then r
        else ReadEvent.chunk (d.drop (MAX_LINE_SIZE - buf.length)) :: r) := rfl
    rw [hch] at hclen hj
    have hcap : 1 ≤ MAX_LINE_SIZE - buf.length := by
      simp only [MAX_LINE_SIZE] at *
      omega
    rw [readLoop_unfold_chunk hg, if_neg hclen, hj] at h ⊢
    rw [hch, hsr] at ih
    have hlt := ih h
    refine lt_of_lt_of_le hlt ?_
    split_ifs
    · simp only [srcMeasure]
      omega
    · simp only [srcMeasure, List.length_drop]
      omega
  | case8 buf src hg =>
    rw [readLoop_unfold_guard hg] at h ⊢
    simp at h

lemma read_line_new_measure (src : Source) (l : List Nat)
    (h : (LineReader.new.read_line src).1 = .ok (some l)) :
    srcMeasure (LineReader.new.read_line src).2.2 < srcMeasure src := by
  rw [read_line_eq] at h ⊢
  simp only [effBuf, LineReader.new, List.length_nil, ne_eq, not_true_eq_false,
    if_false, ite_false] at h ⊢
  exact readLoop_measure_some _ _ l h

lemma serveRequestCore_continue {S : Type} (handle : HandlerMap S) (s : S)
    {res : Except ReadLineError (Option (List Nat))}
    (h : (serveRequestCore handle s res).1 = .ok true) :
    ∃ l, res = .ok (some l) := by
  match res with
  | .error (.read k) => simp [serveRequestCore] at h
  | .error .lineTooLong => simp [serveRequestCore] at h
  | .ok none => simp [serveRequestCore] at h
  | .ok (some lb) => exact ⟨lb, rfl⟩

lemma serveRequest_measure {S : Type} (handle : HandlerMap S) (s : S) (src : Source)
    (h : (serveRequest handle s src).1 = .ok true) :
    srcMeasure (serveRequest handle s src).2.2.1 < srcMeasure src := by
  obtain ⟨l, hl⟩ := serveRequestCore_continue handle s h
  exact read_line_new_measure src l hl

/-- The loop in `serve_client`: repeatedly call `serve_request`; `Ok(true)`
continues, `Ok(false)` stops, and a `ServeError` stops the loop after the
`write_error` helper writes the corresponding `ERR` line. Returns the final
service state and all lines written after the greeting. -/
def serveLoop {S : Type} (handle : HandlerMap S) (s : S) (src : Source) :
    S × List (List Nat) :=
  match h : serveRequest handle s src with
  | (.ok true, s', src', out) =>
    let p := serveLoop handle s' src'
    (p.1, out ++ p.2)
  | (.ok false, s', _, out) => (s', out)
  | (.error e, s', _, out) => (s', out ++ writeError e)
termination_by srcMeasure src
decreasing_by
  have hm := serveRequest_measure handle s src (by rw [h])
  rw [h] at hm
  exact hm

/-- The greeting `serve_client` writes before serving requests:
`b"OK how can I serve you?\n"`. -/
def greetingLine : List Nat := utf8Encode "OK how can I serve you?".toList ++ [10]

/-- `serve_client`: greet the client, then run the request loop. -/
def serveClient {S : Type} (handle : HandlerMap S) (s : S) (src : Source) :
    S × List (List Nat) :=
  ((serveLoop handle s src).1, greetingLine :: (serveLoop handle s src).2)

lemma serveLoop_continue {S : Type} (handle : HandlerMap S) (s : S) (src : Source)
    {s' : S} {src' : Source} {out : List (List Nat)}
    (hsr : serveRequest handle s src = (.ok true, s', src', out)) :
    serveLoop handle s src =
      ((serveLoop handle s' src').1, out ++ (serveLoop handle s' src').2) := by
  rw [serveLoop.eq_def]
  split
  next a b c h =>
    rw [hsr] at h
    injection h with h1 h2
    injection h2 with h2 h3
    injection h3 with h3 h4
    cases h1; subst h2; subst h3; subst h4
    rfl
  next a b c h =>
    rw [hsr] at h
    injection h with h1 _
    simp at h1
  next e a b c h =>
    rw [hsr] at h
    injection h with h1 _
    simp at h1

lemma serveLoop_stop {S : Type} (handle : HandlerMap S) (s : S) (src : Source)
    {s' : S} {src' : Source} {out : List (List Nat)}
    (hsr : serveRequest handle s src = (.ok false, s', src', out)) :
    serveLoop handle s src = (s', out) := by
  rw [serveLoop.eq_def]
  split
  next a b c h =>
    rw [hsr] at h
    injection h with h1 _
    simp at h1
  next a b c h =>
    rw [hsr] at h
    injection h with h1 h2
    injection h2 with h2 h3
    injection h3 with h3 h4
    subst h2; subst h4
    rfl
  next e a b c h =>
    rw [hsr] at h
    injection h with h1 _
    simp at h1

lemma serveLoop_error {S : Type} (handle : HandlerMap S) (s : S) (src : Source)
    {e : ServeError} {s' : S} {src' : Source} {out : List (List Nat)}
    (hsr : serveRequest handle s src = (.error e, s', src', out)) :
    serveLoop handle s src = (s', out ++ writeError e) := by
  rw [serveLoop.eq_def]
  split
  next a b c h =>
    rw [hsr] at h
    injection h with h1 _
    simp at h1
  next a b c h =>
    rw [hsr] at h
    injection h with h1 _
    simp at h1
  next e' a b c h =>
    rw [hsr] at h
    injection h with h1 h2
    injection h2 with h2 h3
    injection h3 with h3 h4
    injection h1 with h1
    subst h1; subst h2; subst h4
    rfl

/-! ## Evaluation lemmas for `chain`, `error` and `write_error` -/

lemma chain_eq (rl : ResponseLine) (d : List Char) :
    rl.chain d = if (rl.append d).2 then some (rl.append d).1 else none := rfl

lemma chain_plain {rl : ResponseLine} {d : List Char} (h : rl.size ≤ 999)
    (hplain : ∀ c ∈ d, optionallyEscape c = none)
    (hfit : rl.size + utf8Total d ≤ 999) :
    rl.chain d = some ⟨rl.resp ++ d⟩ := by
  have hs := append_spec rl d h
  have ht : (rl.append d).2 = true := by
    rw [hs.1, escapedLen_plain hplain]
    omega
  have hr : (rl.append d).1.resp = rl.resp ++ d := by
    rw [hs.2.2 ht, escapeString_plain hplain]
  rw [chain_eq, ht, if_pos rfl]
  cases h2 : (rl.append d).1 with
  | mk resp0 =>
    rw [h2] at hr
    congr 2

lemma chain_none {rl : ResponseLine} {d : List Char} (h : rl.size ≤ 999)
    (hbig : 999 < rl.size + escapedLen d) :
    rl.chain d = none := by
  have hs := append_spec rl d h
  have hf : (rl.append d).2 = false := by
    cases hb : (rl.append d).2
    · rfl
    · exact absurd (hs.1.mp hb) (by omega)
  rw [chain_eq, hf, if_neg (by simp)]

lemma errorResp_plain {code : ErrorCode} {desc : List Char}
    (hnum : ∀ c ∈ natChars code.num, optionallyEscape c = none)
    (hdesc : ∀ c ∈ desc, optionallyEscape c = none)
    (hfit : 5 + utf8Total (natChars code.num) + utf8Total desc ≤ 999) :
    errorResp code desc =
      some ⟨"ERR ".toList ++ natChars code.num ++ [' '] ++ desc⟩ := by
  have h1 : ResponseLine.new.chain "ERR ".toList = some ⟨"ERR ".toList⟩ := by
    have := @chain_plain ResponseLine.new "ERR ".toList
      (by decide) (by decide) (by decide)
    simpa using this
  have hsz1 : (⟨"ERR ".toList⟩ : ResponseLine).size = 4 := by decide
  have h2 : (⟨"ERR ".toList⟩ : ResponseLine).chain (natChars code.num) =
      some ⟨"ERR ".toList ++ natChars code.num⟩ :=
    chain_plain (by rw [hsz1]; omega) hnum (by rw [hsz1]; omega)
  have hsz2 : (⟨"ERR ".toList ++ natChars code.num⟩ : ResponseLine).size =
      4 + utf8Total (natChars code.num) := by
    show utf8Total _ = _
    rw [utf8Total_append]
    rfl
  have h3 : (⟨"ERR ".toList ++ natChars code.num⟩ : ResponseLine).chain [' '] =
      some ⟨"ERR ".toList ++ natChars code.num ++ [' ']⟩ := by
    have := @chain_plain ⟨"ERR ".toList ++ natChars code.num⟩ [' ']
      (by rw [hsz2]; omega) (by decide)
      (by rw [hsz2]
          have hone : utf8Total [' '] = 1 := by decide
          omega)
    exact this
  have hsz3 : (⟨"ERR ".toList ++ natChars code.num ++ [' ']⟩ : ResponseLine).size =
      5 + utf8Total (natChars code.num) := by
    show utf8Total _ = _
    rw [utf8Total_append, utf8Total_append]
    show 4 + _ + 1 = _
    omega
  have h4 : (⟨"ERR ".toList ++ natChars code.num ++ [' ']⟩ : ResponseLine).chain desc =
      some ⟨"ERR ".toList ++ natChars code.num ++ [' '] ++ desc⟩ :=
    chain_plain (by rw [hsz3]; omega) hdesc (by rw [hsz3]; omega)
  unfold errorResp
  rw [h1]
  simp only
  rw [h2]
  simp only
  rw [h3]
  simp only
  exact h4

set_option maxRecDepth 8000 in
/-- Every `write_error` call of the loop writes exactly one line: the five
`ERR` lines it can build are all far below the 1000-byte limit. -/
lemma writeError_len (e : ServeError) : (writeError e).length = 1 := by
  have hline : ∀ code desc, (∀ c ∈ natChars (ErrorCode.num code), optionallyEscape c = none) →
      (∀ c ∈ desc, optionallyEscape c = none) →
      5 + utf8Total (natChars (ErrorCode.num code)) + utf8Total desc ≤ 999 →
      (match errorResp code desc with
       | some rl => [lineBytes rl]
       | none => ([] : List (List Nat))).length = 1 := by
    intro code desc h1 h2 h3
    rw [errorResp_plain h1 h2 h3]
    rfl
  cases e with
  | malformedUtf8 =>
    exact hline ErrorCode.ASS_INV_VALUE utf8ErrorDescChars
      (by decide) (by decide) (by decide)
  | malformedPercentEncoding =>
    exact hline ErrorCode.ASS_PARAMETER "malformed percent encoding".toList
      (by decide) (by decide) (by decide)
  | errorTooLong =>
    exact hline ErrorCode.INTERNAL "error is too long".toList
      (by decide) (by decide) (by decide)
  | receivedLineTooLong =>
    exact hline ErrorCode.ASS_LINE_TOO_LONG "line is too long".toList
      (by decide) (by decide) (by decide)
  | read k =>
    cases k with
    | unexpectedEof =>
      exact hline ErrorCode.ASS_READ_ERROR (ioErrorDescChars .unexpectedEof)
        (by decide) (by decide) (by decide)
    | fromSource =>
      exact hline ErrorCode.ASS_READ_ERROR (ioErrorDescChars .fromSource)
        (by decide) (by decide) (by decide)

/-- A fresh reader has nothing buffered: `read_line` goes straight to the
read loop. -/
lemma read_line_new_eq (src : Source) :
    LineReader.new.read_line src = readLoop [] src := rfl

lemma readLoop_nil_chunk {d : List Nat} {rest : Source} {j : Nat}
    (hlen : d.length ≤ MAX_LINE_SIZE) (hne : d.length ≠ 0) (hpos : pos10 d = some j) :
    readLoop [] (.chunk d :: rest) = (.ok (some (d.take j)), ⟨d, some j⟩, rest) := by
  rw [readLoop_unfold_chunk (by decide)]
  simp only [List.length_nil, Nat.sub_zero, List.nil_append, Nat.zero_add]
  rw [List.take_of_length_le hlen, if_neg hne, hpos, if_pos hlen]

/-- Concrete evaluation of `read_line` on a fresh reader: one chunk of at
most 1000 bytes containing a newline at position `j` yields the first `j`
bytes, with the rest of the source untouched. -/
lemma read_line_new_chunk {d : List Nat} {rest : Source} {j : Nat}
    (hlen : d.length ≤ MAX_LINE_SIZE) (hne : d.length ≠ 0) (hpos : pos10 d = some j) :
    LineReader.new.read_line (.chunk d :: rest) =
      (.ok (some (d.take j)), ⟨d, some j⟩, rest) := by
  rw [read_line_new_eq]
  exact readLoop_nil_chunk hlen hne hpos

lemma serveRequest_eq {S : Type} (handle : HandlerMap S) (s : S) (src : Source)
    {res : Except ReadLineError (Option (List Nat))} {lr' : LineReader} {src' : Source}
    (hr : LineReader.new.read_line src = (res, lr', src')) :
    serveRequest handle s src =
      ((serveRequestCore handle s res).1, (serveRequestCore handle s res).2.1, src',
       (serveRequestCore handle s res).2.2) := by
  unfold serveRequest
  rw [hr]

/-- **C1** (corrected): in the server loop, a handler error whose
`ERR <code> <desc>` line fits in the 1000-byte line limit is written as a
single `ERR` line and the loop continues with the next request on the
remaining source (the connection stays open); but when the handler's error
line does **not** fit, the loop stops after writing the single internal
`ERR` line (`error is too long`) — the connection does not stay open.
Every protocol-level fault — a non-UTF-8 line, a malformed percent encoding
in the arguments, a read I/O error, or a line exceeding the 1000-byte limit
— makes the loop stop after writing exactly one `ERR` line (`writeError`
always produces exactly one line). -/
theorem serve_loop_error_policy {S : Type} (handle : HandlerMap S) (s : S) (src : Source) :
    (∀ lb line s' code desc rl cargs,
      (LineReader.new.read_line src).1 = .ok (some lb) →
      utf8Decode lb = some line →
      ¬(line.head? = some '#' ∨ line = []) →
      decodeArgs (splitOnceSpace line).2 = some cargs →
      handle (splitOnceSpace line).1 s cargs = some (s', .error (code, desc)) →
      errorResp code desc = some rl →
      serveLoop handle s src =
        ((serveLoop handle s' ((LineReader.new.read_line src).2.2)).1,
         lineBytes rl :: (serveLoop handle s' ((LineReader.new.read_line src).2.2)).2)) ∧
    (∀ lb line s' code desc cargs,
      (LineReader.new.read_line src).1 = .ok (some lb) →
      utf8Decode lb = some line →
      ¬(line.head? = some '#' ∨ line = []) →
      decodeArgs (splitOnceSpace line).2 = some cargs →
      handle (splitOnceSpace line).1 s cargs = some (s', .error (code, desc)) →
      errorResp code desc = none →
      serveLoop handle s src = (s', writeError ServeError.errorTooLong)) ∧
    (∀ lb,
      (LineReader.new.read_line src).1 = .ok (some lb) →
      utf8Decode lb = none →
      serveLoop handle s src = (s, writeError ServeError.malformedUtf8)) ∧
    (∀ lb line,
      (LineReader.new.read_line src).1 = .ok (some lb) →
      utf8Decode lb = some line →
      ¬(line.head? = some '#' ∨ line = []) →
      decodeArgs (splitOnceSpace line).2 = none →
      serveLoop handle s src = (s, writeError ServeError.malformedPercentEncoding)) ∧
    (∀ k,
      (LineReader.new.read_line src).1 = .error (.read k) →
      serveLoop handle s src = (s, writeError (ServeError.read k))) ∧
    ((LineReader.new.read_line src).1 = .error .lineTooLong →
      serveLoop handle s src = (s, writeError ServeError.receivedLineTooLong)) ∧
    (∀ e, (writeError e).length = 1) := by
  rcases hrt : LineReader.new.read_line src with ⟨res0, lr0, src2⟩
  have h22 : (LineReader.new.read_line src).2.2 = src2 := by rw [hrt]
  have hfst : (LineReader.new.read_line src).1 = res0 := by rw [hrt]
  refine ⟨?_, ?_, ?_, ?_, ?_, ?_, writeError_len⟩
  · intro lb line s' code desc rl cargs h1 hu hskip hargs hh herr
    have h1' : res0 = .ok (some lb) := h1
    subst h1'
    have hcore : serveRequestCore handle s (.ok (some lb)) = (.ok true, s', [lineBytes rl]) := by
      simp only [serveRequestCore, hu, hargs, hh, herr, if_neg hskip]
    have hsr : serveRequest handle s src = (.ok true, s', src2, [lineBytes rl]) := by
      rw [serveRequest_eq handle s src hrt, hcore]
    rw [serveLoop_continue handle s src hsr]
    rfl
  · intro lb line s' code desc cargs h1 hu hskip hargs hh herr
    have h1' : res0 = .ok (some lb) := h1
    subst h1'
    have hcore : serveRequestCore handle s (.ok (some lb)) =
        (.error .errorTooLong, s', []) := by
      simp only [serveRequestCore, hu, hargs, hh, herr, if_neg hskip]
    have hsr : serveRequest handle s src = (.error .errorTooLong, s', src2, []) := by
      rw [serveRequest_eq handle s src hrt, hcore]
    rw [serveLoop_error handle s src hsr]
    rfl
  · intro lb h1 hu
    have h1' : res0 = .ok (some lb) := h1
    subst h1'
    have hcore : serveRequestCore handle s (.ok (some lb)) =
        (.error .malformedUtf8, s, []) := by
      simp only [serveRequestCore, hu]
    have hsr : serveRequest handle s src = (.error .malformedUtf8, s, src2, []) := by
      rw [serveRequest_eq handle s src hrt, hcore]
    rw [serveLoop_error handle s src hsr]
    rfl
  · intro lb line h1 hu hskip hargs
    have h1' : res0 = .ok (some lb) := h1
    subst h1'
    have hcore : serveRequestCore handle s (.ok (some lb)) =
        (.error .malformedPercentEncoding, s, []) := by
      simp only [serveRequestCore, hu, hargs, if_neg hskip]
    have hsr : serveRequest handle s src =
        (.error .malformedPercentEncoding, s, src2, []) := by
      rw [serveRequest_eq handle s src hrt, hcore]
    rw [serveLoop_error handle s src hsr]
    rfl
  · intro k h1
    have h1' : res0 = .error (.read k) := h1
    subst h1'
    have hsr : serveRequest handle s src = (.error (.read k), s, src2, []) := by
      rw [serveRequest_eq handle s src hrt]
      rfl
    rw [serveLoop_error handle s src hsr]
    rfl
  · intro h1
    have h1' : res0 = .error .lineTooLong := h1
    subst h1'
    have hsr : serveRequest handle s src = (.error .receivedLineTooLong, s, src2, []) := by
      rw [serveRequest_eq handle s src hrt]
      rfl
    rw [serveLoop_error handle s src hsr]
    rfl

/-- Witness for C1: a client whose single line `[255, 10]` is not UTF-8 gets
the malformed-UTF-8 `ERR` line and the loop stops. -/
theorem serve_loop_error_policy_witness :
    serveLoop (fun _ _ _ => none : HandlerMap Unit) () [ReadEvent.chunk [255, 10]] =
      ((), writeError ServeError.malformedUtf8) := by
  have h := serve_loop_error_policy (fun _ _ _ => none : HandlerMap Unit) ()
    [ReadEvent.chunk [255, 10]]
  apply h.2.2.1 [255]
  · rw [read_line_new_chunk (by decide) (by decide)
      (show pos10 [255, 10] = some 1 by decide)]
    rfl
  · decide

lemma utf8Total_replicate (n : Nat) (c : Char) :
    utf8Total (List.replicate n c) = n * charUtf8Size c := by
  induction n with
  | zero => simp [utf8Total]
  | succ n ih =>
    simp only [List.replicate_succ, utf8Total, ih]
    ring

/-- The `error` helper fails with `TooLong` when the description does not
fit after the `ERR <code> ` prefix. -/
lemma errorResp_none {code : ErrorCode} {desc : List Char}
    (hnum : ∀ c ∈ natChars code.num, optionallyEscape c = none)
    (hnfit : 5 + utf8Total (natChars code.num) ≤ 999)
    (hbig : 999 < 5 + utf8Total (natChars code.num) + escapedLen desc) :
    errorResp code desc = none := by
  have h1 : ResponseLine.new.chain "ERR ".toList = some ⟨"ERR ".toList⟩ := by
    have := @chain_plain ResponseLine.new "ERR ".toList
      (by decide) (by decide) (by decide)
    simpa using this
  have hsz1 : (⟨"ERR ".toList⟩ : ResponseLine).size = 4 := by decide
  have h2 : (⟨"ERR ".toList⟩ : ResponseLine).chain (natChars code.num) =
      some ⟨"ERR ".toList ++ natChars code.num⟩ :=
    chain_plain (by rw [hsz1]; omega) hnum (by rw [hsz1]; omega)
  have hsz2 : (⟨"ERR ".toList ++ natChars code.num⟩ : ResponseLine).size =
      4 + utf8Total (natChars code.num) := by
    show utf8Total _ = _
    rw [utf8Total_append]
    rfl
  have h3 : (⟨"ERR ".toList ++ natChars code.num⟩ : ResponseLine).chain [' '] =
      some ⟨"ERR ".toList ++ natChars code.num ++ [' ']⟩ := by
    have := @chain_plain ⟨"ERR ".toList ++ natChars code.num⟩ [' ']
      (by rw [hsz2]; omega) (by decide)
      (by rw [hsz2]
          have hone : utf8Total [' '] = 1 := by decide
          omega)
    exact this
  have hsz3 : (⟨"ERR ".toList ++ natChars code.num ++ [' ']⟩ : ResponseLine).size =
      5 + utf8Total (natChars code.num) := by
    show utf8Total _ = _
    rw [utf8Total_append, utf8Total_append]
    show 4 + _ + 1 = _
    omega
  have h4 : (⟨"ERR ".toList ++ natChars code.num ++ [' ']⟩ : ResponseLine).chain desc =
      none :=
    chain_none (by rw [hsz3]; omega) (by rw [hsz3]; omega)
  unfold errorResp
  rw [h1]
  simp only
  rw [h2]
  simp only
  rw [h3]
  simp only
  exact h4

/-- A handler whose error description is 996 characters long: its
`ERR 63 xxx…x` line would be 1003 bytes and cannot be built. -/
def bigHandle : HandlerMap Unit :=
  fun _ s _ => some (s, .error (ErrorCode.INTERNAL, List.replicate 996 'x'))

/-- Counterexample to C1 as stated: the `BIG` handler *returns an error*,
yet the server does not write an `ERR <code> <desc>` line and the
connection does not stay open — the loop writes the internal
`ERR 63 error is too long` line and stops, so the second request `NOP`
(still queued on the source) is never served. -/
theorem serve_loop_handler_error_counterexample :
    serveLoop bigHandle ()
        [ReadEvent.chunk [66, 73, 71, 10], ReadEvent.chunk [78, 79, 80, 10]] =
      ((), writeError ServeError.errorTooLong) ∧
    writeError ServeError.errorTooLong =
      [utf8Encode "ERR 63 error is too long".toList ++ [10]] := by
  constructor
  · have hrt : LineReader.new.read_line
        [ReadEvent.chunk [66, 73, 71, 10], ReadEvent.chunk [78, 79, 80, 10]] =
        (.ok (some [66, 73, 71]), ⟨[66, 73, 71, 10], some 3⟩,
          [ReadEvent.chunk [78, 79, 80, 10]]) := by
      rw [read_line_new_chunk (by decide) (by decide)
        (show pos10 [66, 73, 71, 10] = some 3 by decide)]
      rfl
    have herr : errorResp ErrorCode.INTERNAL (List.replicate 996 'x') = none := by
      have hesc : escapedLen (List.replicate 996 'x') = 996 := by
        rw [escapedLen_plain (by
          intro c hc
          rw [List.eq_of_mem_replicate hc]
          decide)]
        rw [utf8Total_replicate]
        decide
      refine errorResp_none (by decide) (by decide) ?_
      rw [hesc]
      decide
    have hu : utf8Decode [66, 73, 71] = some ['B', 'I', 'G'] := by decide
    have hskip : ¬((['B', 'I', 'G'].head? = some '#') ∨ ['B', 'I', 'G'] = []) := by decide
    have hargs : decodeArgs (splitOnceSpace ['B', 'I', 'G']).2 = some none := by decide
    have hh : bigHandle (splitOnceSpace ['B', 'I', 'G']).1 () none =
        some ((), .error (ErrorCode.INTERNAL, List.replicate 996 'x')) := rfl
    have hcore : serveRequestCore bigHandle () (.ok (some [66, 73, 71])) =
        (.error .errorTooLong, (), []) := by
      simp only [serveRequestCore, hu, hargs, hh, herr, if_neg hskip]
    have hsr : serveRequest bigHandle ()
        [ReadEvent.chunk [66, 73, 71, 10], ReadEvent.chunk [78, 79, 80, 10]] =
        (.error .errorTooLong, (), [ReadEvent.chunk [78, 79, 80, 10]], []) := by
      rw [serveRequest_eq bigHandle () _ hrt, hcore]
    rw [serveLoop_error bigHandle () _ hsr]
    rfl
  · have he := @errorResp_plain ErrorCode.INTERNAL "error is too long".toList
      (by decide) (by decide) (by decide)
    have hw : writeError ServeError.errorTooLong =
        (match errorResp ErrorCode.INTERNAL "error is too long".toList with
         | some rl => [lineBytes rl]
         | none => []) := rfl
    rw [hw, he]
    rfl

lemma serveLoop_congr {S : Type} (handle : HandlerMap S) (s : S) {src1 src2 : Source}
    (h : serveRequest handle s src1 = serveRequest handle s src2) :
    serveLoop handle s src1 = serveLoop handle s src2 := by
  rcases hq : serveRequest handle s src2 with ⟨r, s', src', out⟩
  have h1 : serveRequest handle s src1 = (r, s', src', out) := by rw [h, hq]
  match r with
  | .ok true =>
    rw [serveLoop_continue handle s src1 h1, serveLoop_continue handle s src2 hq]
  | .ok false =>
    rw [serveLoop_stop handle s src1 h1, serveLoop_stop handle s src2 hq]
  | .error e =>
    rw [serveLoop_error handle s src1 h1, serveLoop_error handle s src2 hq]

/-- **C10**: `serve_request` reads through a `LineReader` constructed fresh
inside it. When one read delivers a chunk holding a complete first line and
further complete lines (`l1`, `\n`, then `extra`), the request consumes the
whole chunk but only `l1` is served: the remaining source after the request
is exactly `rest` (everything buffered past the first newline is discarded
with the per-request reader), and both the single request and the whole
loop behave identically to a client that never sent `extra` — the
discarded lines are never parsed or dispatched. -/
theorem fresh_line_reader_discards_buffered {S : Type} (handle : HandlerMap S) (s : S)
    (l1 extra : List Nat) (rest : Source)
    (hpos : pos10 l1 = none) (hlen : (l1 ++ 10 :: extra).length ≤ MAX_LINE_SIZE) :
    (serveRequest handle s (.chunk (l1 ++ 10 :: extra) :: rest)).2.2.1 = rest ∧
    serveRequest handle s (.chunk (l1 ++ 10 :: extra) :: rest) =
      serveRequest handle s (.chunk (l1 ++ [10]) :: rest) ∧
    serveLoop handle s (.chunk (l1 ++ 10 :: extra) :: rest) =
      serveLoop handle s (.chunk (l1 ++ [10]) :: rest) := by
  have hp1 : pos10 (l1 ++ 10 :: extra) = some l1.length := by
    rw [pos10_append_none hpos]
    simp [pos10]
  have hp2 : pos10 (l1 ++ [10]) = some l1.length := by
    rw [pos10_append_none hpos]
    simp [pos10]
  have hne1 : (l1 ++ 10 :: extra).length ≠ 0 := by simp
  have hne2 : (l1 ++ [10]).length ≠ 0 := by simp
  have hlen2 : (l1 ++ [10]).length ≤ MAX_LINE_SIZE := by
    simp only [List.length_append, List.length_cons] at hlen ⊢
    simp only [List.length_nil]
    omega
  have ht1 : (l1 ++ 10 :: extra).take l1.length = l1 := by
    rw [take_append_left _ _ le_rfl, List.take_length]
  have ht2 : (l1 ++ [10]).take l1.length = l1 := by
    rw [take_append_left _ _ le_rfl, List.take_length]
  have hr1 := @read_line_new_chunk (l1 ++ 10 :: extra) rest l1.length hlen hne1 hp1
  have hr2 := @read_line_new_chunk (l1 ++ [10]) rest l1.length hlen2 hne2 hp2
  rw [ht1] at hr1
  rw [ht2] at hr2
  have hs1 := serveRequest_eq handle s (.chunk (l1 ++ 10 :: extra) :: rest) hr1
  have hs2 := serveRequest_eq handle s (.chunk (l1 ++ [10]) :: rest) hr2
  refine ⟨?_, ?_, ?_⟩
  · rw [hs1]
  · rw [hs1, hs2]
  · exact serveLoop_congr handle s (hs1.trans hs2.symm)

/-- Witness for C10: the chunk `A\nB\n` carries two complete lines; after
the first request the remaining source is empty — the second line `B\n` is
gone — and the whole interaction equals that of a client sending only
`A\n`. -/
theorem fresh_line_reader_discards_buffered_witness :
    (serveRequest (fun _ _ _ => none : HandlerMap Unit) ()
        [ReadEvent.chunk [65, 10, 66, 10]]).2.2.1 = [] ∧
    serveLoop (fun _ _ _ => none : HandlerMap Unit) () [ReadEvent.chunk [65, 10, 66, 10]] =
      serveLoop (fun _ _ _ => none : HandlerMap Unit) () [ReadEvent.chunk [65, 10]] := by
  have h := fresh_line_reader_discards_buffered (fun _ _ _ => none : HandlerMap Unit) ()
    [65] [66, 10] [] (by decide) (by decide)
  exact ⟨h.1, h.2.2⟩

/-! ## The pinentry service — `pinentry/src/lib.rs` -/

/-- `PinentryServer`'s mutable fields; the wrapped `cmds` backend is passed
to the handlers as an explicit function. -/
structure PinentryState where
  desc : Option (List Char)
  prompt : Option (List Char)
  window_title : Option (List Char)
  button_ok : Option (List Char)
  button_not_ok : Option (List Char)
  button_cancel : Option (List Char)
  error_text : Option (List Char)
deriving DecidableEq, Repr

/-- `PinentryServer::new`: every field starts out unset. -/
def PinentryState.new : PinentryState := ⟨none, none, none, none, none, none, none⟩

/-- `Buttons` of the confirmation dialog. -/
structure Buttons where
  ok : List Char
  not_ok : Option (List Char)
  cancel : Option (List Char)
deriving DecidableEq, Repr

/-- `ConfirmChoice`. -/
inductive ConfirmChoice where
  | ok
  | canceled
  | notOk
deriving DecidableEq, Repr

/-- `HandleError<E>` (the `TooLong` payload of `DebugInfoTooLong` is a unit
struct). -/
inductive HandleError (E : Type) where
  | debugInfoTooLong
  | confirmRefused
  | confirmCancelled
  | noPin
  | pinentryCmd (e : E)
deriving DecidableEq, Repr

/-- The `Display` impl for `HandleError`, given the display of the backend's
error type. -/
def HandleError.display {E : Type} (dispE : E → List Char) :
    HandleError E → List Char
  | .debugInfoTooLong => "internal error: debug info is too long".toList
  | .confirmRefused => "refused".toList
  | .confirmCancelled => "canceled".toList
  | .noPin => "no pin given".toList
  | .pinentryCmd e => dispE e

/-- The `HasErrorCode` impl for `HandleError`, given the backend error's
code. -/
def HandleError.code {E : Type} (codeE : E → ErrorCode) :
    HandleError E → ErrorCode
  | .debugInfoTooLong => ErrorCode.INTERNAL
  | .confirmRefused => ErrorCode.NOT_CONFIRMED
  | .confirmCancelled => ErrorCode.CANCELED
  | .noPin => ErrorCode.NO_PIN
  | .pinentryCmd e => codeE e

/-- The `GETPIN` handler (`PinentryServer::get_pin`): call the backend's
`get_pin` with the current `error_text`, the window title (default
`"Enter PIN"`), the current `desc`, and the prompt (default `"PIN: "`);
`Ok(Some(pin))` becomes a `SecretData` response, `Ok(None)` becomes
`HandleError::NoPin`, and a backend error is wrapped in `PinentryCmd`. -/
def pinentry_get_pin {E : Type}
    (cmds : Option (List Char) → List Char → Option (List Char) → List Char →
      Except E (Option Data))
    (st : PinentryState) : Except (HandleError E) Resp :=
  match cmds st.error_text (st.window_title.getD "Enter PIN".toList) st.desc
      (st.prompt.getD "PIN: ".toList) with
  | .error e => .error (.pinentryCmd e)
  | .ok none => .error .noPin
  | .ok (some sd) => .ok (.secretData sd)

/-- The button set `_confirm` builds: with `--one-button` only the OK button
(configured `button_ok` or `"OK"`); otherwise the three configured buttons,
with `cancel` defaulting to `"Cancel"` when both `not_ok` and `cancel` are
unset. -/
def confirmButtons (st : PinentryState) (one_button : Bool) : Buttons :=
  if one_button then
    ⟨st.button_ok.getD "OK".toList, none, none⟩
  else
    let btns : Buttons := ⟨st.button_ok.getD "OK".toList, st.button_not_ok, st.button_cancel⟩
    if btns.not_ok = none ∧ btns.cancel = none then
      { btns with cancel := some "Cancel".toList }
    else btns

/-- `PinentryServer::_confirm`: build the buttons, call the backend's
`confirm` with the current `error_text`, the window title (default
`"Confirm"`) and `desc`, and map the choice:
`Ok → Response::ok()`, `NotOk → ConfirmRefused`,
`Canceled → ConfirmCancelled`. -/
def pinentry_confirm_core {E : Type}
    (cmds : Option (List Char) → List Char → Option (List Char) → Buttons →
      Except E ConfirmChoice)
    (st : PinentryState) (one_button : Bool) : Except (HandleError E) Resp :=
  match cmds st.error_text (st.window_title.getD "Confirm".toList) st.desc
      (confirmButtons st one_button) with
  | .error e => .error (.pinentryCmd e)
  | .ok .ok => .ok (.ok Ok.new)
  | .ok .notOk => .error .confirmRefused
  | .ok .canceled => .error .confirmCancelled

/-- `str::trim`: drop whitespace from both ends (`char::is_whitespace`
rendered by `Char.isWhitespace`). -/
def rustTrim (s : List Char) : List Char :=
  ((s.dropWhile Char.isWhitespace).reverse.dropWhile Char.isWhitespace).reverse

/-- The `CONFIRM` handler: `--one-button` (after trimming) selects the
one-button dialog. -/
def pinentry_confirm {E : Type}
    (cmds : Option (List Char) → List Char → Option (List Char) → Buttons →
      Except E ConfirmChoice)
    (st : PinentryState) (args : Option (List Char)) : Except (HandleError E) Resp :=
  pinentry_confirm_core cmds st
    ((args.map (fun a => rustTrim a == "--one-button".toList)).getD false)

/-- The `MESSAGE` handler: `self._confirm(true)`, whatever the arguments. -/
def pinentry_message {E : Type}
    (cmds : Option (List Char) → List Char → Option (List Char) → Buttons →
      Except E ConfirmChoice)
    (st : PinentryState) (_args : Option (List Char)) : Except (HandleError E) Resp :=
  pinentry_confirm_core cmds st true

/-- `str::ends_with(' ')`. -/
def endsWithSpace (l : List Char) : Bool := l.getLast? == some ' '

/-- The `SETPROMPT` handler generated by `define_setters!`: store the
argument into `prompt`, then append a space when the stored value does not
already end with one; reply `Response::ok()`. -/
def set_prompt {E : Type} (st : PinentryState) (args : Option (List Char)) :
    PinentryState × Except (HandleError E) Resp :=
  let p := args.map (fun v => if endsWithSpace v then v else v ++ [' '])
  ({ st with prompt := p }, .ok (.ok Ok.new))

/-- **C7**: `GETPIN` calls the backend `get_pin` with the current
`error_text`, the window title defaulting to `"Enter PIN"` when unset, the
current `desc`, and the prompt defaulting to `"PIN: "` when unset; a
returned secret becomes a `SecretData` response, a `None` fails with
`NoPin`, whose error code is `NO_PIN` and whose display text is
`"no pin given"`. -/
theorem get_pin_behavior {E : Type} (dispE : E → List Char) (codeE : E → ErrorCode)
    (cmds : Option (List Char) → List Char → Option (List Char) → List Char →
      Except E (Option Data))
    (st : PinentryState) :
    (∀ sd, cmds st.error_text (st.window_title.getD "Enter PIN".toList) st.desc
        (st.prompt.getD "PIN: ".toList) = .ok (some sd) →
      pinentry_get_pin cmds st = .ok (Resp.secretData sd)) ∧
    (cmds st.error_text (st.window_title.getD "Enter PIN".toList) st.desc
        (st.prompt.getD "PIN: ".toList) = .ok none →
      pinentry_get_pin cmds st = .error .noPin) ∧
    (∀ e, cmds st.error_text (st.window_title.getD "Enter PIN".toList) st.desc
        (st.prompt.getD "PIN: ".toList) = .error e →
      pinentry_get_pin cmds st = .error (.pinentryCmd e)) ∧
    HandleError.code codeE (.noPin : HandleError E) = ErrorCode.NO_PIN ∧
    HandleError.display dispE (.noPin : HandleError E) = "no pin given".toList := by
  refine ⟨?_, ?_, ?_, rfl, rfl⟩
  · intro sd h
    unfold pinentry_get_pin
    rw [h]
  · intro h
    unfold pinentry_get_pin
    rw [h]
  · intro e h
    unfold pinentry_get_pin
    rw [h]

/-- Witness for C7: a backend that always returns no PIN makes `GETPIN`
fail with `NoPin` on a fresh state. -/
theorem get_pin_behavior_witness :
    pinentry_get_pin (fun _ _ _ _ => .ok none : Option (List Char) → List Char →
      Option (List Char) → List Char → Except Unit (Option Data)) PinentryState.new =
      .error .noPin ∧
    HandleError.display (fun _ => []) (.noPin : HandleError Unit) = "no pin given".toList := by
  have h := get_pin_behavior (fun _ => ([] : List Char)) (fun _ => ErrorCode.NO_PIN)
    (fun _ _ _ _ => .ok none : Option (List Char) → List Char →
      Option (List Char) → List Char → Except Unit (Option Data)) PinentryState.new
  exact ⟨h.2.1 rfl, h.2.2.2.2⟩

/-- **C8**: `CONFIRM --one-button` (argument compared after trimming) and
`MESSAGE` both run the one-button dialog, whose button set is only
`ok = button_ok ∨ "OK"`; plain `CONFIRM` passes the configured three
buttons with `cancel` defaulting to `"Cancel"` when both `not_ok` and
`cancel` are unset; the backend's choice maps to
`Ok → Response::ok()`, `NotOk → ConfirmRefused` (code `NOT_CONFIRMED`,
text `"refused"`), `Canceled → ConfirmCancelled` (code `CANCELED`, text
`"canceled"`). -/
theorem confirm_behavior {E : Type} (dispE : E → List Char) (codeE : E → ErrorCode)
    (cmds : Option (List Char) → List Char → Option (List Char) → Buttons →
      Except E ConfirmChoice)
    (st : PinentryState) :
    (∀ a, rustTrim a = "--one-button".toList →
      pinentry_confirm cmds st (some a) = pinentry_confirm_core cmds st true) ∧
    (∀ a, pinentry_message cmds st a = pinentry_confirm_core cmds st true) ∧
    confirmButtons st true = ⟨st.button_ok.getD "OK".toList, none, none⟩ ∧
    (st.button_not_ok = none → st.button_cancel = none →
      confirmButtons st false =
        ⟨st.button_ok.getD "OK".toList, none, some "Cancel".toList⟩) ∧
    (¬(st.button_not_ok = none ∧ st.button_cancel = none) →
      confirmButtons st false =
        ⟨st.button_ok.getD "OK".toList, st.button_not_ok, st.button_cancel⟩) ∧
    (∀ b, cmds st.error_text (st.window_title.getD "Confirm".toList) st.desc
          (confirmButtons st b) = .ok .ok →
      pinentry_confirm_core cmds st b = .ok (.ok Ok.new)) ∧
    (∀ b, cmds st.error_text (st.window_title.getD "Confirm".toList) st.desc
          (confirmButtons st b) = .ok .notOk →
      pinentry_confirm_core cmds st b = .error .confirmRefused) ∧
    (∀ b, cmds st.error_text (st.window_title.getD "Confirm".toList) st.desc
          (confirmButtons st b) = .ok .canceled →
      pinentry_confirm_core cmds st b = .error .confirmCancelled) ∧
    HandleError.code codeE (.confirmRefused : HandleError E) = ErrorCode.NOT_CONFIRMED ∧
    HandleError.display dispE (.confirmRefused : HandleError E) = "refused".toList ∧
    HandleError.code codeE (.confirmCancelled : HandleError E) = ErrorCode.CANCELED ∧
    HandleError.display dispE (.confirmCancelled : HandleError E) = "canceled".toList := by
  refine ⟨?_, ?_, rfl, ?_, ?_, ?_, ?_, ?_, rfl, rfl, rfl, rfl⟩
  · intro a ha
    unfold pinentry_confirm
    simp [ha]
  · intro a
    rfl
  · intro h1 h2
    unfold confirmButtons
    rw [if_neg (by simp), if_pos ⟨h1, h2⟩]
    simp [h1]
  · intro h
    unfold confirmButtons
    rw [if_neg (by simp), if_neg h]
  · intro b h
    unfold pinentry_confirm_core
    rw [h]
  · intro b h
    unfold pinentry_confirm_core
    rw [h]
  · intro b h
    unfold pinentry_confirm_core
    rw [h]

/-- Witness for C8: on a fresh state with a backend always choosing
`NotOk`, `CONFIRM  --one-button ` (extra whitespace trimmed away) equals
the one-button dialog and fails with `ConfirmRefused`; the two-button
default set carries the `"Cancel"` button. -/
theorem confirm_behavior_witness :
    pinentry_confirm (fun _ _ _ _ => .ok .notOk : Option (List Char) → List Char →
        Option (List Char) → Buttons → Except Unit ConfirmChoice)
      PinentryState.new (some " --one-button ".toList) =
      pinentry_confirm_core (fun _ _ _ _ => .ok .notOk) PinentryState.new true ∧
    pinentry_confirm_core (fun _ _ _ _ => .ok .notOk : Option (List Char) → List Char →
        Option (List Char) → Buttons → Except Unit ConfirmChoice)
      PinentryState.new true = .error .confirmRefused ∧
    confirmButtons PinentryState.new false = ⟨"OK".toList, none, some "Cancel".toList⟩ := by
  have h := confirm_behavior (fun _ => ([] : List Char)) (fun _ => ErrorCode.CANCELED)
    (fun _ _ _ _ => .ok .notOk : Option (List Char) → List Char →
      Option (List Char) → Buttons → Except Unit ConfirmChoice)
    PinentryState.new
  refine ⟨h.1 " --one-button ".toList (by decide), h.2.2.2.2.2.2.1 true rfl, ?_⟩
  have hc := h.2.2.2.1 rfl rfl
  simpa using hc

/-- **C9**: `SETPROMPT s` stores `s` unchanged when `s` already ends with a
space and `s` with one space appended otherwise (so the stored prompt
always ends with a space), replies `Response::ok()`, and leaves every
other field unchanged. -/
theorem set_prompt_behavior {E : Type} (st : PinentryState) (s : List Char) :
    (s.getLast? = some ' ' → (set_prompt (E := E) st (some s)).1.prompt = some s) ∧
    (s.getLast? ≠ some ' ' →
      (set_prompt (E := E) st (some s)).1.prompt = some (s ++ [' '])) ∧
    (∀ p, (set_prompt (E := E) st (some s)).1.prompt = some p →
      p.getLast? = some ' ') ∧
    (set_prompt (E := E) st (some s)).2 = .ok (.ok Ok.new) ∧
    (set_prompt (E := E) st (some s)).1.desc = st.desc ∧
    (set_prompt (E := E) st (some s)).1.window_title = st.window_title ∧
    (set_prompt (E := E) st (some s)).1.button_ok = st.button_ok ∧
    (set_prompt (E := E) st (some s)).1.button_not_ok = st.button_not_ok ∧
    (set_prompt (E := E) st (some s)).1.button_cancel = st.button_cancel ∧
    (set_prompt (E := E) st (some s)).1.error_text = st.error_text := by
  refine ⟨?_, ?_, ?_, rfl, rfl, rfl, rfl, rfl, rfl, rfl⟩
  · intro h
    show (some (if endsWithSpace s then s else s ++ [' ']) : Option (List Char)) = some s
    rw [if_pos (by simp [endsWithSpace, h])]
  · intro h
    show (some (if endsWithSpace s then s else s ++ [' ']) : Option (List Char)) =
      some (s ++ [' '])
    rw [if_neg (by simp [endsWithSpace, h])]
  · intro p hp
    have hp' : some (if endsWithSpace s then s else s ++ [' ']) = some p := hp
    by_cases he : endsWithSpace s
    · rw [if_pos he] at hp'
      injection hp' with hq
      subst hq
      simpa [endsWithSpace] using he
    · rw [if_neg he] at hp'
      injection hp' with hq
      subst hq
      simp

/-- Witness for C9: `SETPROMPT "PIN"` stores `"PIN "`. -/
theorem set_prompt_behavior_witness :
    (set_prompt (E := Unit) PinentryState.new (some "PIN".toList)).1.prompt =
      some "PIN ".toList ∧
    (set_prompt (E := Unit) PinentryState.new (some "PIN".toList)).2 =
      .ok (.ok Ok.new) := by
  have h := set_prompt_behavior (E := Unit) PinentryState.new "PIN".toList
  refine ⟨?_, h.2.2.2.1⟩
  have := h.2.1 (by decide)
  rw [this]
  rfl
